import Mathlib

/-!
Shallow embedding of the chess engine in `src/engine.rs` (the `Game` struct and
its methods), together with theorems settling the specification claims.

Modelling conventions:
* Machine integers (`usize`, `u32`) become `Nat`; none of the embedded code
  paths can overflow a `u32` in a way the claims depend on.
* The Rust board `[[Option<&'a Piece>; 8]; 8]` becomes `Fin 8 → Fin 8 → Option
  Piece`; the shared `&'static Piece` references collapse to the value type
  `Piece` (equality in Rust is structural `PartialEq`, matched here by
  `DecidableEq`).
* `Vec<T>` becomes `List T`; Rust loops become folds or explicit recursions
  that preserve the iteration order and the early-exit behaviour of the
  original loops.
* Methods that mutate `self` become functions `Game → ... → Game` (returning
  the updated game, paired with the Rust return value when there is one).
* The bounded mutual recursion between move generation and the check test
  (castling calls `in_check`, which generates opposing moves, which may again
  reach castling code) is modelled with an explicit fuel parameter; the Rust
  call depth is bounded (each nested call displaces a king from its home
  square, which disables deeper castling scans), so a generous constant fuel
  (`engineFuel`) makes the fuel-exhaustion branches unreachable.
* Spots where the Rust code would panic are marked with comments; they are
  modelled by a total default that the surrounding guards make unreachable in
  every execution the theorems talk about.
-/

namespace Chess

/-- Kind of chess piece (`enum Kind` in src/engine.rs). -/
inductive Kind where
  | King | Queen | Knight | Bishop | Rook | Pawn
deriving DecidableEq

/-- Color of a chess piece (`enum Color` in src/engine.rs). -/
inductive Color where
  | White | Black
deriving DecidableEq

/-- Victory status (`enum VictoryStatus` in src/engine.rs). -/
inductive VictoryStatus where
  | Checkmate | Stalemate | Draw | InProgress
deriving DecidableEq

/-- A chess piece (`struct Piece` in src/engine.rs): a color and a kind. -/
structure Piece where
  color : Color
  kind : Kind
deriving DecidableEq

/-- Board coordinates `(file, rank)`, `(0,0)` = a1, `(7,7)` = h8;
Rust `(usize, usize)`. -/
abbrev Pos := Nat × Nat

/-- One sub-move `(from, to)`. -/
abbrev Move := Pos × Pos

/-- The 8×8 board `[[Option<&Piece>; 8]; 8]`; `b x y` is `board[x][y]`. -/
abbrev Board := Fin 8 → Fin 8 → Option Piece

/-- Read a board cell at a `Nat`-pair index. Rust indexes the fixed-size
array directly (callers guarantee bounds); out of bounds reads answer `none`
here. -/
def boardGet (b : Board) (p : Pos) : Option Piece :=
  if h : p.1 < 8 ∧ p.2 < 8 then b ⟨p.1, h.1⟩ ⟨p.2, h.2⟩ else none

/-- Write a board cell at a `Nat`-pair index (no cell changes when the index
is out of bounds, which callers never do in the source). -/
def boardSet (b : Board) (p : Pos) (v : Option Piece) : Board :=
  fun x y => if x.val = p.1 ∧ y.val = p.2 then v else b x y

/-- The empty board. -/
def emptyBoard : Board := fun _ _ => none

/-- Back-rank piece kind by file, as produced by the setup loops of
`Game::new`: the loop places `WHITE[1+i]` (Rook, Knight, Bishop for
`i = 0,1,2`) at files `i` and `7-i` of rank 0, then the queen at file 3 and
the king at file 4 (mirrored for Black on rank 7). -/
def backRankKind (x : Nat) : Kind :=
  match x with
  | 0 => Kind.Rook
  | 1 => Kind.Knight
  | 2 => Kind.Bishop
  | 3 => Kind.Queen
  | 4 => Kind.King
  | 5 => Kind.Bishop
  | 6 => Kind.Knight
  | _ => Kind.Rook

/-- The starting board built by `Game::new`: pawns on ranks 1 and 6, the
mirrored back ranks on ranks 0 and 7. This writes the array the setup loops
produce directly, cell by cell. -/
def startBoard : Board := fun x y =>
  match y.val with
  | 1 => some ⟨Color.White, Kind.Pawn⟩
  | 6 => some ⟨Color.Black, Kind.Pawn⟩
  | 0 => some ⟨Color.White, backRankKind x.val⟩
  | 7 => some ⟨Color.Black, backRankKind x.val⟩
  | _ => none

/-- The game state (`struct Game` in src/engine.rs). -/
structure Game where
  turn : Nat
  board : Board
  ignore_kings : Bool
  ignore_check : Bool
  last : Move
  black_can_castle_right : Bool
  black_can_castle_left : Bool
  white_can_castle_right : Bool
  white_can_castle_left : Bool
  board_history : List Board
  seventy_five_move_rule : Nat
  last_color : Color

/-- `Game::save_board`: push the current board onto the history. -/
def Game.save_board (self : Game) : Game :=
  { self with board_history := self.board_history ++ [self.board] }

/-- `Game::new`: all pieces in their starting squares; the constructor then
calls `save_board` once, so the history starts with one snapshot. -/
def Game.new : Game :=
  Game.save_board
    { turn := 1
      board := startBoard
      ignore_kings := false
      ignore_check := false
      last := ((0, 0), (0, 0))
      white_can_castle_right := true
      black_can_castle_right := true
      white_can_castle_left := true
      black_can_castle_left := true
      board_history := []
      seventy_five_move_rule := 0
      last_color := Color.Black }

/-- `Game::new_empty`: an empty board, otherwise like `Game::new`. -/
def Game.new_empty : Game :=
  Game.save_board
    { turn := 1
      board := emptyBoard
      ignore_kings := false
      ignore_check := false
      last := ((0, 0), (0, 0))
      white_can_castle_right := true
      black_can_castle_right := true
      white_can_castle_left := true
      black_can_castle_left := true
      board_history := []
      seventy_five_move_rule := 0
      last_color := Color.Black }

/-- `Game::get_from_pos`: the piece at a position. -/
def Game.get_from_pos (self : Game) (pos : Pos) : Option Piece :=
  boardGet self.board pos

/-- `Game::set_at_pos`: place (or clear) a piece; when a piece is placed its
color is recorded as the color that moved last. -/
def Game.set_at_pos (self : Game) (pos : Pos) (piece : Option Piece) : Game :=
  let s1 := match piece with
    | some p => { self with last_color := p.color }
    | none => self
  { s1 with board := boardSet s1.board pos piece }

/-- `Game::by_color`: all pieces of a color with their positions, scanned
rank by rank (`y` outer, `x` inner), a1 through h8. -/
def Game.by_color (self : Game) (color : Color) : List (Pos × Piece) :=
  (List.range 8).flatMap fun y =>
    (List.range 8).filterMap fun x =>
      match boardGet self.board (x, y) with
      | some piece => if piece.color = color then some ((x, y), piece) else none
      | none => none

/-- `Game::by_kind_and_color`: all pieces of a kind and color with their
positions; note the scan order here is file-major (`x` outer, `y` inner),
unlike `by_color`. -/
def Game.by_kind_and_color (self : Game) (kind : Kind) (color : Color) :
    List (Pos × Piece) :=
  (List.range 8).flatMap fun x =>
    (List.range 8).filterMap fun y =>
      match boardGet self.board (x, y) with
      | some piece =>
          if piece.kind = kind ∧ piece.color = color then some ((x, y), piece)
          else none
      | none => none

/-- The per-kind side-effect block of `move_piece`: a pawn move re-zeroes
the halfmove clock and promotes to the strongest piece on the far rank (the
piece to place replaces `moving`); a king move clears both of its color's
castling flags; a rook move departing file 0 or file 7 clears that side's
flag. Returns the updated game with the piece to place at `t`. -/
def movePieceUpdate (g1 : Game) (p : Piece) (moving : Option Piece)
    (f t : Pos) : Game × Option Piece :=
  if p.kind = Kind.Pawn then
    ({ g1 with seventy_five_move_rule := 0 },
      if p.color = Color.White ∧ t.2 = 7 then
        some ⟨Color.White, Kind.Queen⟩  -- &WHITE[4]
      else if p.color = Color.Black ∧ t.2 = 0 then
        some ⟨Color.Black, Kind.Queen⟩  -- &BLACK[4]
      else moving)
  else if p.kind = Kind.King then
    (match p.color with
      | Color.White =>
        { g1 with white_can_castle_left := false, white_can_castle_right := false }
      | Color.Black =>
        { g1 with black_can_castle_left := false, black_can_castle_right := false },
      moving)
  else if p.kind = Kind.Rook then
    (match p.color with
      | Color.White =>
        if f.1 = 0 then { g1 with white_can_castle_left := false }
        else if f.1 = 7 then { g1 with white_can_castle_right := false }
        else g1
      | Color.Black =>
        if f.1 = 0 then { g1 with black_can_castle_left := false }
        else if f.1 = 7 then { g1 with black_can_castle_right := false }
        else g1,
      moving)
  else (g1, moving)

/-- The halfmove-clock block of `move_piece`: reset to 0 when the target
square was occupied (a capture), else increment. -/
def movePieceClock (self : Game) (other : Option Piece) : Game :=
  if other.isSome then { self with seventy_five_move_rule := 0 }
  else { self with seventy_five_move_rule := self.seventy_five_move_rule + 1 }

/-- `Game::move_piece`: relocate the occupant of `f` to `t`, returning the
updated game and the piece previously at `t`. Out-of-bounds coordinates or an
empty `f` leave the game unchanged and return `none`. Side effects: halfmove
clock reset on capture (else incremented, `movePieceClock`), then the
per-kind block (`movePieceUpdate`), and `last` is set to `(f, t)`. -/
def Game.move_piece (self : Game) (f t : Pos) : Game × Option Piece :=
  if 7 < f.1 ∨ 7 < f.2 ∨ 7 < t.1 ∨ 7 < t.2 then (self, none)
  else
    let moving := self.get_from_pos f
    let other := self.get_from_pos t
    match moving with
    | none => (self, none)
    | some p =>
      let g1 := movePieceClock self other
      let step : Game × Option Piece := movePieceUpdate g1 p moving f t
      let g2 := step.1
      let g3 := g2.set_at_pos t step.2
      let g4 := g3.set_at_pos f none
      ({ g4 with last := (f, t) }, other)

/-- Is a sub-move out of bounds (the test `move_pieces` applies up front)? -/
def moveOOB (v : Move) : Bool :=
  7 < v.1.1 ∨ 7 < v.1.2 ∨ 7 < v.2.1 ∨ 7 < v.2.2

/-- The second loop of `Game::move_pieces`: apply the sub-moves in order,
remembering the most recent non-empty capture, clearing the history on any
capture, and snapshotting the board after each sub-move. -/
def Game.movePiecesLoop : Game → List Move → Option Piece → Game × Option Piece
  | g, [], captured => (g, captured)
  | g, v :: rest, captured =>
    let step := g.move_piece v.1 v.2
    let next :=
      match step.2 with
      | some _ => ({ step.1 with board_history := [] }, step.2)
      | none => (step.1, captured)
    Game.movePiecesLoop next.1.save_board rest next.2

/-- `Game::move_pieces`: first validate every sub-move's bounds (rejecting
the whole list, with the game unchanged, if any endpoint is out of bounds),
then run the application loop. -/
def Game.move_pieces (self : Game) (moves : List Move) : Game × Option Piece :=
  if moves.any moveOOB then (self, none)
  else Game.movePiecesLoop self moves none

/-- One sliding direction of `raw_moves`: each Rust `while` loop steps while
`next` allows, pushes the square reached, and stops after the first occupied
square (that square included, a potential capture). `fuel = 8` bounds each
loop just as the board edge does in the source. -/
def slideDir (g : Game) (next : Pos → Option Pos) : Nat → Pos → List Pos
  | 0, _ => []
  | fuel + 1, cur =>
    match next cur with
    | none => []
    | some q =>
      q :: (if (g.get_from_pos q).isSome then [] else slideDir g next fuel q)

/-- Step right along a rank (`while x < 7 { x += 1; ... }`). -/
def nextXP (c : Pos) : Option Pos := if c.1 < 7 then some (c.1 + 1, c.2) else none

/-- Step left along a rank (`while x > 0 { x -= 1; ... }`). -/
def nextXM (c : Pos) : Option Pos := if 0 < c.1 then some (c.1 - 1, c.2) else none

/-- Step up a file. -/
def nextYP (c : Pos) : Option Pos := if c.2 < 7 then some (c.1, c.2 + 1) else none

/-- Step down a file. -/
def nextYM (c : Pos) : Option Pos := if 0 < c.2 then some (c.1, c.2 - 1) else none

/-- Step up-right diagonally. -/
def nextPP (c : Pos) : Option Pos :=
  if c.1 < 7 ∧ c.2 < 7 then some (c.1 + 1, c.2 + 1) else none

/-- Step down-right diagonally. -/
def nextPM (c : Pos) : Option Pos :=
  if c.1 < 7 ∧ 0 < c.2 then some (c.1 + 1, c.2 - 1) else none

/-- Step up-left diagonally. -/
def nextMP (c : Pos) : Option Pos :=
  if 0 < c.1 ∧ c.2 < 7 then some (c.1 - 1, c.2 + 1) else none

/-- Step down-left diagonally. -/
def nextMM (c : Pos) : Option Pos :=
  if 0 < c.1 ∧ 0 < c.2 then some (c.1 - 1, c.2 - 1) else none

/-- The rook destinations of `raw_moves`, in source push order: right, left,
up, down. -/
def rookScan (g : Game) (pos : Pos) : List Pos :=
  slideDir g nextXP 8 pos ++ slideDir g nextXM 8 pos ++
  slideDir g nextYP 8 pos ++ slideDir g nextYM 8 pos

/-- The bishop destinations, in source push order: the four diagonals. -/
def bishopScan (g : Game) (pos : Pos) : List Pos :=
  slideDir g nextPP 8 pos ++ slideDir g nextPM 8 pos ++
  slideDir g nextMP 8 pos ++ slideDir g nextMM 8 pos

/-- The queen destinations: the four diagonals, then the four orthogonals,
in source push order. -/
def queenScan (g : Game) (pos : Pos) : List Pos :=
  bishopScan g pos ++ rookScan g pos

/-- The knight destinations of `raw_moves`, in source push order, each offset
guarded to stay in bounds. -/
def knightScan (pos : Pos) : List Pos :=
  (if 1 ≤ pos.1 then
    (if 2 ≤ pos.2 then [(pos.1 - 1, pos.2 - 2)] else []) ++
    (if pos.2 ≤ 5 then [(pos.1 - 1, pos.2 + 2)] else [])
   else []) ++
  (if pos.1 ≤ 6 then
    (if 2 ≤ pos.2 then [(pos.1 + 1, pos.2 - 2)] else []) ++
    (if pos.2 ≤ 5 then [(pos.1 + 1, pos.2 + 2)] else [])
   else []) ++
  (if 2 ≤ pos.1 then
    (if 1 ≤ pos.2 then [(pos.1 - 2, pos.2 - 1)] else []) ++
    (if pos.2 ≤ 6 then [(pos.1 - 2, pos.2 + 1)] else [])
   else []) ++
  (if pos.1 ≤ 5 then
    (if 1 ≤ pos.2 then [(pos.1 + 2, pos.2 - 1)] else []) ++
    (if pos.2 ≤ 6 then [(pos.1 + 2, pos.2 + 1)] else [])
   else [])

/-- The king's eight adjacent destinations, in source push order. -/
def kingAdjScan (pos : Pos) : List Pos :=
  (if 0 < pos.1 then
    [(pos.1 - 1, pos.2)] ++
    (if 0 < pos.2 then [(pos.1 - 1, pos.2 - 1)] else []) ++
    (if pos.2 < 7 then [(pos.1 - 1, pos.2 + 1)] else [])
   else []) ++
  (if pos.1 < 7 then
    [(pos.1 + 1, pos.2)] ++
    (if 0 < pos.2 then [(pos.1 + 1, pos.2 - 1)] else []) ++
    (if pos.2 < 7 then [(pos.1 + 1, pos.2 + 1)] else [])
   else []) ++
  (if 0 < pos.2 then [(pos.1, pos.2 - 1)] else []) ++
  (if pos.2 < 7 then [(pos.1, pos.2 + 1)] else [])

/-- The en-passant trigger test of the pawn blocks of `raw_moves`, for the
adjacent file `adj` and en-passant rank `rank` (4 for White, 3 for Black),
with `fromRank` the rank the double step came from (`pos.1 + 2` for White,
`pos.1 - 2` for Black in the source): the adjacent square on the pawn's rank
holds an opposing-color piece, the pawn stands on the en-passant rank, and
the last recorded move is the double step into that adjacent square. -/
def passantTest (g : Game) (piece : Piece) (pos : Pos) (adj fromRank rank : Nat) :
    Bool :=
  match g.get_from_pos (adj, pos.2) with
  | some other =>
    decide (other.color ≠ piece.color ∧ pos.2 = rank ∧
      g.last = ((adj, fromRank), (adj, pos.2)))
  | none => false

/-- The white-pawn block of `raw_moves`: returns the pair
(multi-sub-move en-passant sequences pushed directly to `result`,
single destinations pushed to `moves`), in source push order: double step,
single step, left capture, right capture; the en-passant test fires when the
adjacent square on the same rank holds an opposing-color piece, the pawn is
on rank 4, and the last recorded move entered that square from two ranks
above; a fired en-passant suppresses the ordinary diagonal capture push on
that side. -/
def pawnScanWhite (g : Game) (pos : Pos) (piece : Piece) :
    List (List Move) × List Pos :=
  let two :=
    if pos.2 = 1 ∧ g.get_from_pos (pos.1, pos.2 + 1) = none ∧
        g.get_from_pos (pos.1, pos.2 + 2) = none then
      [(pos.1, pos.2 + 2)]
    else []
  let one :=
    if pos.2 < 7 ∧ g.get_from_pos (pos.1, pos.2 + 1) = none then
      [(pos.1, pos.2 + 1)]
    else []
  let leftSide : List (List Move) × List Pos :=
    if 0 < pos.1 ∧ pos.2 < 7 then
      let passant : Bool := passantTest g piece pos (pos.1 - 1) (pos.2 + 2) 4
      let res : List (List Move) :=
        if passant then
          [[((pos.1, pos.2), (pos.1 - 1, pos.2)),
            ((pos.1 - 1, pos.2), (pos.1 - 1, pos.2 + 1))]]
        else []
      let cap : List Pos :=
        if (g.get_from_pos (pos.1 - 1, pos.2 + 1)).isSome && !passant then
          [(pos.1 - 1, pos.2 + 1)]
        else []
      (res, cap)
    else ([], [])
  let rightSide : List (List Move) × List Pos :=
    if pos.1 < 7 ∧ pos.2 < 7 then
      let passant : Bool := passantTest g piece pos (pos.1 + 1) (pos.2 + 2) 4
      let res : List (List Move) :=
        if passant then
          [[((pos.1, pos.2), (pos.1 + 1, pos.2)),
            ((pos.1 + 1, pos.2), (pos.1 + 1, pos.2 + 1))]]
        else []
      let cap : List Pos :=
        if (g.get_from_pos (pos.1 + 1, pos.2 + 1)).isSome && !passant then
          [(pos.1 + 1, pos.2 + 1)]
        else []
      (res, cap)
    else ([], [])
  (leftSide.1 ++ rightSide.1, two ++ one ++ leftSide.2 ++ rightSide.2)

/-- The black-pawn block of `raw_moves`, mirroring `pawnScanWhite`: starting
rank 6, en-passant rank 3, forward is decreasing rank. -/
def pawnScanBlack (g : Game) (pos : Pos) (piece : Piece) :
    List (List Move) × List Pos :=
  let two :=
    if pos.2 = 6 ∧ g.get_from_pos (pos.1, pos.2 - 1) = none ∧
        g.get_from_pos (pos.1, pos.2 - 2) = none then
      [(pos.1, pos.2 - 2)]
    else []
  let one :=
    if 0 < pos.2 ∧ g.get_from_pos (pos.1, pos.2 - 1) = none then
      [(pos.1, pos.2 - 1)]
    else []
  let leftSide : List (List Move) × List Pos :=
    if 0 < pos.1 ∧ 0 < pos.2 then
      let passant : Bool := passantTest g piece pos (pos.1 - 1) (pos.2 - 2) 3
      let res : List (List Move) :=
        if passant then
          [[((pos.1, pos.2), (pos.1 - 1, pos.2)),
            ((pos.1 - 1, pos.2), (pos.1 - 1, pos.2 - 1))]]
        else []
      let cap : List Pos :=
        if (g.get_from_pos (pos.1 - 1, pos.2 - 1)).isSome && !passant then
          [(pos.1 - 1, pos.2 - 1)]
        else []
      (res, cap)
    else ([], [])
  let rightSide : List (List Move) × List Pos :=
    if pos.1 < 7 ∧ 0 < pos.2 then
      let passant : Bool := passantTest g piece pos (pos.1 + 1) (pos.2 - 2) 3
      let res : List (List Move) :=
        if passant then
          [[((pos.1, pos.2), (pos.1 + 1, pos.2)),
            ((pos.1 + 1, pos.2), (pos.1 + 1, pos.2 - 1))]]
        else []
      let cap : List Pos :=
        if (g.get_from_pos (pos.1 + 1, pos.2 - 1)).isSome && !passant then
          [(pos.1 + 1, pos.2 - 1)]
        else []
      (res, cap)
    else ([], [])
  (leftSide.1 ++ rightSide.1, two ++ one ++ leftSide.2 ++ rightSide.2)

/-- The queenside castling scan of `raw_moves` (`for i in 1..4` with
`p = (pos.0 - i, pos.1)`), unrolled, with the check test passed in as `ic`.
At `i = 1` the king steps onto `(pos.0-1, pos.1)` on a clone (abort if that
returned a capture, i.e. the square was occupied, or if the clone is now in
check); at `i = 2` the source again calls `move_piece pos (pos.0-2, pos.1)`
— whose `from` square is already empty, so nothing happens — and repeats the
check test on the unchanged clone; at `i = 3` the square next to the rook
must be empty and a same-color rook must sit at file 0, after which the full
three-sub-move sequence is pushed. -/
def castleLeftScan (ic : Game → Color → Bool) (self : Game) (pos : Pos)
    (piece : Piece) : List (List Move) :=
  let p1 : Pos := (pos.1 - 1, pos.2)
  let s1 := self.move_piece pos p1
  if s1.2.isSome then []
  else if ic s1.1 piece.color then []
  else
    let p2 : Pos := (pos.1 - 2, pos.2)
    let s2 := s1.1.move_piece pos p2
    if s2.2.isSome then []
    else if ic s2.1 piece.color then []
    else
      if s2.1.get_from_pos (1, pos.2) = none then
        match s2.1.get_from_pos (0, pos.2) with
        | some rook =>
          if rook.color = piece.color ∧ rook.kind = Kind.Rook then
            [[((p1.1 + 1, p1.2), p1), ((p2.1 + 1, p2.2), p2),
              ((0, pos.2), (3, pos.2))]]
          else []
        | none => []
      else []

/-- The kingside castling scan of `raw_moves` (`p = (pos.0 + i, pos.1)`),
unrolled exactly as `castleLeftScan`; at `i = 3` the square `(6, pos.1)` must
be empty and a same-color rook must sit at file 7. -/
def castleRightScan (ic : Game → Color → Bool) (self : Game) (pos : Pos)
    (piece : Piece) : List (List Move) :=
  let p1 : Pos := (pos.1 + 1, pos.2)
  let s1 := self.move_piece pos p1
  if s1.2.isSome then []
  else if ic s1.1 piece.color then []
  else
    let p2 : Pos := (pos.1 + 2, pos.2)
    let s2 := s1.1.move_piece pos p2
    if s2.2.isSome then []
    else if ic s2.1 piece.color then []
    else
      if s2.1.get_from_pos (6, pos.2) = none then
        match s2.1.get_from_pos (7, pos.2) with
        | some rook =>
          if rook.color = piece.color ∧ rook.kind = Kind.Rook then
            [[((p1.1 - 1, p1.2), p1), ((p2.1 - 1, p2.2), p2),
              ((7, pos.2), (5, pos.2))]]
          else []
        | none => []
      else []

mutual

/-- `Game::raw_moves` with explicit fuel: the pseudo-legal candidate
sequences for the piece at `pos` (empty when the square is empty). Multi-move
sequences (en passant, castling) are pushed to the result directly; the
single destinations collected in `moves` are appended as singleton sequences
at the end, exactly as in the source. -/
def rawMovesAux : Nat → Game → Pos → List (List Move)
  | 0, _, _ => []
  | fuel + 1, self, pos =>
    match self.get_from_pos pos with
    | none => []
    | some piece =>
      let pair : List (List Move) × List Pos :=
        match piece.kind with
        | Kind.Pawn =>
          match piece.color with
          | Color.White => pawnScanWhite self pos piece
          | Color.Black => pawnScanBlack self pos piece
        | Kind.Rook => ([], rookScan self pos)
        | Kind.Bishop => ([], bishopScan self pos)
        | Kind.Queen => ([], queenScan self pos)
        | Kind.Knight => ([], knightScan pos)
        | Kind.King =>
          let castles :=
            match piece.color with
            | Color.White =>
              if pos = (4, 0) then
                (if self.white_can_castle_left then
                  castleLeftScan (fun g c => inCheckAux fuel g c) self pos piece
                 else []) ++
                (if self.white_can_castle_right then
                  castleRightScan (fun g c => inCheckAux fuel g c) self pos piece
                 else [])
              else []
            | Color.Black =>
              if pos = (4, 7) then
                (if self.black_can_castle_left then
                  castleLeftScan (fun g c => inCheckAux fuel g c) self pos piece
                 else []) ++
                (if self.black_can_castle_right then
                  castleRightScan (fun g c => inCheckAux fuel g c) self pos piece
                 else [])
              else []
          (castles, kingAdjScan pos)
      pair.1 ++ pair.2.map (fun v => [(pos, v)])

/-- `Game::check_valid_moves` with explicit fuel: filter the raw candidate
sequences, dropping a sequence as soon as replaying it on a clone hits an
out-of-bounds sub-move, a final square holding a same-color piece, or (when
`test_check` is set) a sub-move that leaves the mover's king in check. The
source marks offending indices and removes them afterwards; since each
sequence is replayed on its own clone that equals a `filter`. -/
def checkValidMovesAux : Nat → Game → Pos → Bool → List (List Move)
  | 0, _, _, _ => []
  | fuel + 1, self, pos, test_check =>
    (rawMovesAux fuel self pos).filter fun seq =>
      (seq.foldl
        (fun st v =>
          match st with
          | none => none
          | some (g : Game) =>
            if moveOOB v then none
            else
              match g.get_from_pos v.1 with
              | none => none  -- the source panics here (no piece at the square)
              | some piece =>
                let friendly : Bool :=
                  match g.get_from_pos v.2 with
                  | some other => decide (other.color = piece.color)
                  | none => false
                if friendly then none
                else if test_check && checkForCheckAux fuel g v.1 v.2 then none
                else some (g.move_piece v.1 v.2).1)
        (some self)).isSome

/-- `Game::check_for_check` with explicit fuel: clone, apply the move, and
ask whether the mover's color is then in check. -/
def checkForCheckAux : Nat → Game → Pos → Pos → Bool
  | 0, _, _, _ => false
  | fuel + 1, self, f, t =>
    match self.get_from_pos f with
    | none => false  -- the source panics here (no piece found at the position)
    | some piece => inCheckAux fuel (self.move_piece f t).1 piece.color

/-- `Game::in_check` with explicit fuel: locate the first king of the color
(file-major scan), then report whether any opposing piece has an unfiltered
candidate sub-move ending on the king's square. -/
def inCheckAux : Nat → Game → Color → Bool
  | 0, _, _ => false
  | fuel + 1, self, color =>
    if self.ignore_check then false
    else
      let other :=
        match color with
        | Color.White => Color.Black
        | Color.Black => Color.White
      match (self.by_kind_and_color Kind.King color).head? with
      | none => false
        -- with `ignore_kings` set the source returns false here; with it
        -- unset the source panics ("There is no king"); both modelled false
      | some king =>
        (self.by_color other).any fun piece =>
          (checkValidMovesAux fuel self piece.1 false).any fun moves =>
            moves.any fun v => decide (v.2 = king.1)

end

/-- Fuel used by the public wrappers. The Rust recursion depth is bounded by
a small constant (each castling scan displaces the scanned king from its home
square, so nested scans cut off), making 64 far more than any execution can
consume. -/
def engineFuel : Nat := 64

/-- `Game::raw_moves` (public wrapper at full fuel). -/
def Game.raw_moves (self : Game) (pos : Pos) : List (List Move) :=
  rawMovesAux engineFuel self pos

/-- `Game::check_valid_moves` (public wrapper at full fuel). -/
def Game.check_valid_moves (self : Game) (pos : Pos) (test_check : Bool) :
    List (List Move) :=
  checkValidMovesAux engineFuel self pos test_check

/-- `Game::valid_moves`: `check_valid_moves` with the check test enabled. -/
def Game.valid_moves (self : Game) (pos : Pos) : List (List Move) :=
  checkValidMovesAux engineFuel self pos true

/-- `Game::in_check` (public wrapper at full fuel). -/
def Game.in_check (self : Game) (color : Color) : Bool :=
  inCheckAux engineFuel self color

/-- `Game::check_for_check` (public wrapper at full fuel). -/
def Game.check_for_check (self : Game) (f t : Pos) : Bool :=
  checkForCheckAux engineFuel self f t

/-- Cell-for-cell board comparison, as done by the `'rep` loops of
`check_victory` and `three_fold_repetition` (`x` outer, `y` inner; a snapshot
counts as a match when no cell differs). -/
def boardsMatch (v lastB : Board) : Bool :=
  (List.finRange 8).all fun x =>
    (List.finRange 8).all fun y => decide (v x y = lastB x y)

/-- How many history snapshots match the most recent snapshot cell for cell
(the `matches` counter of `check_victory`; the most recent snapshot always
matches itself). The source unwraps `board_history.last()`, which its length
guard keeps nonempty. -/
def rep_matches (g : Game) : Nat :=
  match g.board_history.getLast? with
  | some lastB => g.board_history.countP fun v => boardsMatch v lastB
  | none => 0

/-- The color loop of `check_victory` (`for color in vec![Black, White]`):
skip a color as soon as one of its pieces has a nonempty legal-move list;
for a color with no legal move anywhere, report Checkmate for the opponent
when it is in check, Stalemate for the opponent when it was not the color
that moved last, and otherwise fall through to the next color. -/
def victoryLoop (g : Game) : List Color → Option (VictoryStatus × Color)
  | [] => none
  | color :: rest =>
    if (g.by_color color).any (fun pc => decide (0 < (g.valid_moves pc.1).length))
    then victoryLoop g rest
    else
      let opposite := if color = Color.White then Color.Black else Color.White
      if g.in_check color then some (VictoryStatus.Checkmate, opposite)
      else if g.last_color ≠ color then some (VictoryStatus.Stalemate, opposite)
      else victoryLoop g rest

/-- `Game::check_victory`: a Draw when the halfmove clock has reached 75, or
when at least 5 history snapshots (the history being at least 5 long) match
the most recent one cell for cell; otherwise the Black-then-White loop.
Draws are attributed to White ("in case of a draw a random color is
returned"). -/
def Game.check_victory (g : Game) : Option (VictoryStatus × Color) :=
  if 75 ≤ g.seventy_five_move_rule then some (VictoryStatus.Draw, Color.White)
  else if 5 ≤ g.board_history.length ∧ 5 ≤ rep_matches g then
    some (VictoryStatus.Draw, Color.White)
  else victoryLoop g [Color.Black, Color.White]

/-- The opponent of a color (inlined at several places in the source). -/
def otherColor (c : Color) : Color :=
  match c with
  | Color.White => Color.Black
  | Color.Black => Color.White

/-- File index to letter, as pushed by `move_to_an` (the source panics on an
index above 7; such indices never reach this table). -/
def fileChar (n : Nat) : Char :=
  match n with
  | 0 => 'a' | 1 => 'b' | 2 => 'c' | 3 => 'd'
  | 4 => 'e' | 5 => 'f' | 6 => 'g' | _ => 'h'

/-- Rank index to digit, as pushed by `move_to_an`. -/
def rankChar (n : Nat) : Char :=
  match n with
  | 0 => '1' | 1 => '2' | 2 => '3' | 3 => '4'
  | 4 => '5' | 5 => '6' | 6 => '7' | _ => '8'

/-- Piece letter for non-pawn kinds (`move_to_an` with `unicode = false`;
the pawn case is never consulted — the source panics there). -/
def pieceLetter (k : Kind) : Char :=
  match k with
  | Kind.Rook => 'R'
  | Kind.Knight => 'N'
  | Kind.Bishop => 'B'
  | Kind.Queen => 'Q'
  | _ => 'K'

/-- Black unicode symbol for non-pawn kinds (`move_to_an` with
`unicode = true`; the pawn case is never consulted). -/
def pieceSymbol (k : Kind) : Char :=
  match k with
  | Kind.Rook => Char.ofNat 0x265C
  | Kind.Knight => Char.ofNat 0x265E
  | Kind.Bishop => Char.ofNat 0x265D
  | Kind.Queen => Char.ofNat 0x265B
  | _ => Char.ofNat 0x265A

/-- The capture scan of `move_to_an`: the last sub-move destination (on the
pre-move board) holding an opposing-color piece, if any. -/
def an_capture (self : Game) (piece : Piece) (m : List Move) : Option Piece :=
  m.foldl
    (fun c v =>
      match self.get_from_pos v.2 with
      | some p => if piece.color ≠ p.color then some p else c
      | none => c)
    none

/-- One candidate sequence of the disambiguation scan of `move_to_an`:
does the sequence end on the destination square? -/
def hitsDest (dest : Pos) (v : List Move) : Bool :=
  match v.getLast? with
  | some mv => decide (mv.2.1 = dest.1 ∧ mv.2.2 = dest.2)
  | none => false  -- the source unwraps; candidates are nonempty

/-- The inner step of the disambiguation scan of `move_to_an`: for a
candidate move sequence ending on the destination, the source sets `row`
when the candidate's and the origin's files agree, else sets `col`. -/
def disambigInner (origin dest : Pos) (i : Pos × Piece)
    (rc2 : Bool × Bool) (v : List Move) : Bool × Bool :=
  match v.getLast? with
  | some mv =>
    if mv.2.1 = dest.1 ∧ mv.2.2 = dest.2 then
      if i.1.1 = origin.1 then (true, rc2.2) else (rc2.1, true)
    else rc2
  | none => rc2  -- the source unwraps; candidates are nonempty

/-- The outer step of the disambiguation scan of `move_to_an`: a candidate
piece is examined only when its position differs from the move's origin in
file AND in rank. -/
def disambigStep (self : Game) (origin dest : Pos)
    (rc : Bool × Bool) (i : Pos × Piece) : Bool × Bool :=
  if i.1.1 ≠ origin.1 ∧ i.1.2 ≠ origin.2 then
    (self.valid_moves i.1).foldl (disambigInner origin dest i) rc
  else rc

/-- Boolean form of the effective disambiguation condition: the candidate
piece differs from the origin in both coordinates and has a legal move
ending on the destination. -/
def disambigHit (self : Game) (origin dest : Pos) (i : Pos × Piece) : Bool :=
  (decide (i.1.1 ≠ origin.1 ∧ i.1.2 ≠ origin.2)) &&
    (self.valid_moves i.1).any (hitsDest dest)

/-- The disambiguation scan of `move_to_an`: fold over the same-kind,
same-color pieces; a piece is examined only when its position differs from
the move's origin in file AND in rank, and for each of its legal moves
ending on the destination the source sets `row` when the files agree
(impossible inside this guard) and `col` otherwise. Emits the origin file
letter when `col` was set, then the origin rank digit when `row` was set. -/
def an_disambig (self : Game) (piece : Piece) (origin dest : Pos) : List Char :=
  let rc : Bool × Bool :=
    (self.by_kind_and_color piece.kind piece.color).foldl
      (disambigStep self origin dest) (false, false)
  (if rc.2 then [fileChar origin.1] else []) ++
    (if rc.1 then [rankChar origin.2] else [])

/-- Everything `move_to_an` pushes before the result/check suffix: the
castle strings for three-sub-move sequences, otherwise piece letter or
symbol (for a pawn, the origin file letter when capturing), disambiguation,
"x" on capture, the destination square, "e.p." for a two-sub-move pawn
sequence, and "=Q" for a pawn reaching a back rank. -/
def an_core (self : Game) (piece : Piece) (m : List Move) (unicode : Bool) :
    List Char :=
  let m0 := m.headD ((0, 0), (0, 0))
  let dest := (m.getLastD ((0, 0), (0, 0))).2
  let capture := an_capture self piece m
  if m.length = 3 then
    if m0.2.1 = 3 then "0-0-0".toList
    else if m0.2.1 = 5 then "0-0".toList
    else []  -- the source panics: invalid castling move
  else
    (if piece.kind = Kind.Pawn then
      (if capture.isSome then [fileChar m0.1.1] else [])
     else if unicode then [pieceSymbol piece.kind]
     else [pieceLetter piece.kind]) ++
    an_disambig self piece m0.1 dest ++
    (if capture.isSome then ['x'] else []) ++
    [fileChar dest.1, rankChar dest.2] ++
    (if m.length = 2 then
      (if piece.kind = Kind.Pawn then "e.p.".toList
       else [])  -- the source panics: only pawns have two-sub-move sequences
     else []) ++
    (if piece.kind = Kind.Pawn ∧ (dest.2 = 7 ∨ dest.2 = 0) then "=Q".toList
     else [])

/-- The result/check suffix of `move_to_an`, computed on the game after the
move: when the game is decided and `result` is set, "#" plus " 1-0"/" 0-1"
for a checkmate and " ½-½" otherwise; when the game is not decided, "+" if
the opponent is in check — the latter regardless of `result`. -/
def an_suffix (g2 : Game) (c : Color) (result : Bool) : List Char :=
  match g2.check_victory with
  | some v =>
    if result then
      if v.1 = VictoryStatus.Checkmate then
        '#' :: (match c with
          | Color.White => [' ', '1', '-', '0']
          | Color.Black => [' ', '0', '-', '1'])
      else [' ', Char.ofNat 189, '-', Char.ofNat 189]
    else []
  | none => if g2.in_check (otherColor c) then ['+'] else []

/-- `Game::move_to_an`: algebraic notation for a move sequence, as a list of
characters (Rust returns a `String`; all engine-produced notation without
unicode symbols or draw markers is ASCII, where byte positions and character
positions agree). -/
def Game.move_to_an (self : Game) (m : List Move) (result unicode : Bool) :
    List Char :=
  match m.head? with
  | none => []  -- the source indexes `m[0]` (panic on an empty slice)
  | some m0 =>
    match self.get_from_pos m0.1 with
    | none => []  -- the source panics: no piece at the origin
    | some piece =>
      an_core self piece m unicode ++
        an_suffix (self.move_pieces m).1 piece.color result

/-- `string_to_pos`: two characters, a file letter `A`–`H` or `a`–`h` and a
rank digit `1`–`8`; any other length gives error 1, any other character
error 2. Character codes stand in for the Rust bytes (identical on ASCII). -/
def string_to_pos (s : List Char) : Except Int Pos :=
  if s.length ≠ 2 then Except.error 1
  else
    let b0 := (s.headD ' ').toNat
    let b1 := (s.getD 1 ' ').toNat
    match (if 65 ≤ b0 ∧ b0 ≤ 72 then some (b0 - 65)
           else if 97 ≤ b0 ∧ b0 ≤ 104 then some (b0 - 97)
           else none : Option Nat) with
    | none => Except.error 2
    | some x =>
      if 49 ≤ b1 ∧ b1 ≤ 56 then Except.ok (x, b1 - 49) else Except.error 2

/-- Piece kind from the leading character of a notation string (letters or
unicode symbols; anything else means a pawn). -/
def anKind (c : Char) : Kind :=
  if c = 'R' ∨ c = Char.ofNat 0x2656 ∨ c = Char.ofNat 0x265C then Kind.Rook
  else if c = 'N' ∨ c = Char.ofNat 0x2658 ∨ c = Char.ofNat 0x265E then Kind.Knight
  else if c = 'B' ∨ c = Char.ofNat 0x2657 ∨ c = Char.ofNat 0x265D then Kind.Bishop
  else if c = 'Q' ∨ c = Char.ofNat 0x2655 ∨ c = Char.ofNat 0x265B then Kind.Queen
  else if c = 'K' ∨ c = Char.ofNat 0x2654 ∨ c = Char.ofNat 0x265A then Kind.King
  else Kind.Pawn

/-- The pawn-branch length adjustment of `an_to_move`: strip a trailing
"e.p." (when the string has at least 6 characters) or else a trailing "=Q"
(at least 4). -/
def anPawnLen (s : List Char) : Nat :=
  let len := s.length
  if 6 ≤ len ∧ s.drop (len - 4) = "e.p.".toList then len - 4
  else if 4 ≤ len ∧ s.drop (len - 2) = "=Q".toList then len - 2
  else len

/-- The pawn-branch target parse of `an_to_move`: the last two characters
(before any stripped decoration) as a square, else the last character plus
'1' for a file-only target; `none` models the source's early `return None`. -/
def anPawnTarget (s : List Char) (len : Nat) : Option (Option Nat × Option Nat) :=
  match string_to_pos ((s.take len).drop (len - 2)) with
  | Except.ok pos => some (some pos.1, some pos.2)
  | Except.error _ =>
    match string_to_pos [s.getD (len - 1) ' ', '1'] with
    | Except.ok pos => some (some pos.1, none)
    | Except.error _ => none

/-- The pawn-branch origin-hint parse of `an_to_move`: the first two
characters as a square (used only when more than two characters remain),
else the first character plus '1' for a file-only hint. -/
def anPawnOrigin (s : List Char) (len : Nat) : Option (Option Nat × Option Nat) :=
  match string_to_pos (s.take 2) with
  | Except.ok pos =>
    if 2 < len then some (some pos.1, some pos.2) else some (none, none)
  | Except.error _ =>
    match string_to_pos [s.headD ' ', '1'] with
    | Except.ok pos => some (some pos.1, none)
    | Except.error _ => none

/-- The non-pawn origin-hint parse of `an_to_move` (only when the string is
longer than 3): characters 1–2 as a full square, else character 1 as 'x'
(ignored), a file letter, or a rank digit (tried as the rank of "E?"). -/
def anPieceHints (s : List Char) : Option (Option Nat × Option Nat) :=
  if 3 < s.length then
    match string_to_pos ((s.take 3).drop 1) with
    | Except.ok pos => some (some pos.1, some pos.2)
    | Except.error _ =>
      if s.getD 1 ' ' = 'x' then some (none, none)
      else
        match string_to_pos [s.getD 1 ' ', '1'] with
        | Except.ok pos => some (some pos.1, none)
        | Except.error _ =>
          match string_to_pos ['E', s.getD 1 ' '] with
          | Except.ok pos => some (none, some pos.2)
          | Except.error _ => none
  else some (none, none)

/-- The search loop of `an_to_move`: over the pieces of the requested kind
and color whose position fits any origin hints, collect the legal moves
whose final destination fits the target hints; a unique hit is the answer.
The source sets a `found` flag and returns `None` at a second hit, which is
the same as demanding exactly one. -/
def anSearch (self : Game) (kind : Kind) (color : Color)
    (px py tx ty : Option Nat) : Option (List Move) :=
  let hits :=
    ((self.by_kind_and_color kind color).filter fun p =>
      decide (px.getD p.1.1 = p.1.1 ∧ py.getD p.1.2 = p.1.2)).flatMap
      fun p =>
        (self.valid_moves p.1).filter fun v =>
          match v.getLast? with
          | some mv => decide (tx.getD mv.2.1 = mv.2.1 ∧ ty.getD mv.2.2 = mv.2.2)
          | none => false
  match hits with
  | [v] => some v
  | _ => none

/-- `Game::an_to_move`: parse algebraic notation (as characters) into a move
sequence for the given color; `none` both for malformed text and for an
absent or ambiguous move. -/
def Game.an_to_move (self : Game) (s : List Char) (color : Color) :
    Option (List Move) :=
  if s.length < 2 then none
  else if s = "0-0".toList ∨ s = "0-0-0".toList then
    match (self.by_kind_and_color Kind.King color).getLast? with
    | none => none  -- the source unwraps the last king (panic when absent)
    | some v =>
      (self.valid_moves v.1).find? fun mseq =>
        match mseq.head? with
        | some h =>
          decide ((s = "0-0".toList ∧ h.2.1 = 5) ∨
            (s = "0-0-0".toList ∧ h.2.1 = 3))
        | none => false
  else
    let kind := anKind (s.headD ' ')
    if kind = Kind.Pawn then
      let len := anPawnLen s
      match anPawnTarget s len with
      | none => none
      | some t =>
        match anPawnOrigin s len with
        | none => none
        | some o => anSearch self kind color o.1 o.2 t.1 t.2
    else
      if s.length < 3 then none
      else
        match anPieceHints s with
        | none => none
        | some o =>
          match string_to_pos (s.drop (s.length - 2)) with
          | Except.error _ => none
          | Except.ok t => anSearch self kind color o.1 o.2 (some t.1) (some t.2)

/-! Claim-side definitions: statements of (amended) claims are phrased with
the definitions below, which are written from the claims' wording, separately
from the engine embedding above. -/

/-- The forward rank of a pawn (one rank up for White, one down for Black). -/
def pawnForward (c : Color) (r : Nat) : Nat :=
  match c with
  | Color.White => r + 1
  | Color.Black => r - 1

/-- The en-passant emission condition of (amended) claim C1 for the adjacent
file `adj`: that square on the pawn's own rank holds an opposing-color piece
(of any kind), the pawn stands on the en-passant rank (index 4 for White, 3
for Black), and the immediately preceding recorded move was a two-square
straight move into that adjacent square. -/
def enPassantCond (g : Game) (pos : Pos) (c : Color) (adj : Nat) : Prop :=
  (∃ other, g.get_from_pos (adj, pos.2) = some other ∧ other.color ≠ c) ∧
  (match c with
   | Color.White => pos.2 = 4 ∧ g.last = ((adj, pos.2 + 2), (adj, pos.2))
   | Color.Black => pos.2 = 3 ∧ g.last = ((adj, pos.2 - 2), (adj, pos.2)))

instance (g : Game) (pos : Pos) (c : Color) (adj : Nat) :
    Decidable (enPassantCond g pos c adj) := by
  unfold enPassantCond
  cases c <;> exact inferInstance

/-- The two-sub-move en-passant sequence onto the adjacent file `adj`: step
onto the passed pawn's square, then forward onto the vacated square. -/
def enPassantSeq (pos : Pos) (adj fwd : Nat) : List Move :=
  [((pos.1, pos.2), (adj, pos.2)), ((adj, pos.2), (adj, fwd))]

/-- The queenside castle sequence on rank `y` as generated by the engine. -/
def castleSeqLeft (y : Nat) : List Move :=
  [((4, y), (3, y)), ((3, y), (2, y)), ((0, y), (3, y))]

/-- The kingside castle sequence on rank `y` as generated by the engine. -/
def castleSeqRight (y : Nat) : List Move :=
  [((4, y), (5, y)), ((5, y), (6, y)), ((7, y), (5, y))]

/-- The disambiguation condition of (amended) claim C6: some piece of the
same kind and color, differing from the origin in file and in rank, has a
legal move whose final destination is the same square. -/
def disambigNeeded (self : Game) (piece : Piece) (origin dest : Pos) : Prop :=
  ∃ i ∈ self.by_kind_and_color piece.kind piece.color,
    i.1.1 ≠ origin.1 ∧ i.1.2 ≠ origin.2 ∧
      ∃ v ∈ self.valid_moves i.1,
        ∃ mv, v.getLast? = some mv ∧ mv.2.1 = dest.1 ∧ mv.2.2 = dest.2

instance (self : Game) (piece : Piece) (origin dest : Pos) :
    Decidable (disambigNeeded self piece origin dest) := by
  unfold disambigNeeded
  exact inferInstance

/-- Modelled from the claim wording (C3), the per-color verdict: Checkmate
for the opponent when the color is in check, else Stalemate for the opponent
when the color was not the side that moved last, else nothing (examination
proceeds). -/
def colorVerdict (g : Game) (c : Color) : Option (VictoryStatus × Color) :=
  if g.in_check c then some (VictoryStatus.Checkmate, otherColor c)
  else if g.last_color ≠ c then some (VictoryStatus.Stalemate, otherColor c)
  else none

/-- Modelled from the claim wording (C3): examine Black then White; the
first examined color with zero legal moves across all its pieces gets its
verdict; a `none` verdict (or a color with moves) passes examination on; no
result when neither color yields a verdict. -/
def claim_outcome (g : Game) : Option (VictoryStatus × Color) :=
  let blackVerdict :=
    if ∀ pc ∈ g.by_color Color.Black, g.valid_moves pc.1 = [] then
      colorVerdict g Color.Black
    else none
  match blackVerdict with
  | some r => some r
  | none =>
    if ∀ pc ∈ g.by_color Color.White, g.valid_moves pc.1 = [] then
      colorVerdict g Color.White
    else none

/-- Modelled from the claim wording (C8): apply the sub-moves in order via
`move_piece`, snapshot the board after each sub-move, clear the history on
any capture, and return the most recent non-empty capture. -/
def spec_apply (g0 : Game) (moves : List Move) : Game × Option Piece :=
  moves.foldl
    (fun st v =>
      let step := st.1.move_piece v.1 v.2
      let g2 :=
        if step.2.isSome then { step.1 with board_history := [] } else step.1
      (g2.save_board, if step.2.isSome then step.2 else st.2))
    (g0, none)

/-! Concrete games used by counterexample and witness theorems. -/

/-- A white pawn on b5 next to a black rook that has just moved a7–a5 two
squares straight down (placed with `set_at_pos`, then moved with
`move_piece` so that the last-move record is genuine). -/
def passantCounterGame : Game :=
  (((Game.new_empty.set_at_pos (1, 4) (some ⟨Color.White, Kind.Pawn⟩)).set_at_pos
      (0, 6) (some ⟨Color.Black, Kind.Rook⟩)).move_piece (0, 6) (0, 4)).1

/-- White king e1 and rook a1 with castling rights intact, black knight c1
occupying an intermediate queenside square. -/
def castleCounterGame : Game :=
  ((Game.new_empty.set_at_pos (4, 0) (some ⟨Color.White, Kind.King⟩)).set_at_pos
      (0, 0) (some ⟨Color.White, Kind.Rook⟩)).set_at_pos
    (2, 0) (some ⟨Color.Black, Kind.Knight⟩)

/-- White rooks a1 and h1 (both able to reach d1), white king e2, black king
a8. -/
def disambigCounterGame : Game :=
  (((Game.new_empty.set_at_pos (0, 0) (some ⟨Color.White, Kind.Rook⟩)).set_at_pos
      (7, 0) (some ⟨Color.White, Kind.Rook⟩)).set_at_pos
      (4, 1) (some ⟨Color.White, Kind.King⟩)).set_at_pos
    (0, 7) (some ⟨Color.Black, Kind.King⟩)

/-- White rook a1 and king h1, black king e8; the rook move a1–a8 gives
check without deciding the game. -/
def suffixCounterGame : Game :=
  ((Game.new_empty.set_at_pos (0, 0) (some ⟨Color.White, Kind.Rook⟩)).set_at_pos
      (7, 0) (some ⟨Color.White, Kind.King⟩)).set_at_pos
    (4, 7) (some ⟨Color.Black, Kind.King⟩)

/-- Black king a8 mated by a white queen a7 guarded by the white king b6
(used to instantiate suffix behaviour at a decided game). -/
def mateGame : Game :=
  ((Game.new_empty.set_at_pos (0, 7) (some ⟨Color.Black, Kind.King⟩)).set_at_pos
      (0, 6) (some ⟨Color.White, Kind.Queen⟩)).set_at_pos
    (1, 5) (some ⟨Color.White, Kind.King⟩)

/-- All legal White moves from the standard start position, gathered piece
by piece. -/
def startWhiteMoves : List (List Move) :=
  (Game.new.by_color Color.White).flatMap fun pc => Game.new.valid_moves pc.1

/-! Helper lemmas about the board primitives. -/

theorem boardGet_boardSet_self (b : Board) (p : Pos) (v : Option Piece)
    (h1 : p.1 < 8) (h2 : p.2 < 8) : boardGet (boardSet b p v) p = v := by
  simp [boardGet, boardSet, h1, h2]

theorem boardGet_boardSet_ne (b : Board) (p q : Pos) (v : Option Piece)
    (h : q ≠ p) : boardGet (boardSet b p v) q = boardGet b q := by
  unfold boardGet boardSet
  split
  next hb =>
    have hne : ¬(q.1 = p.1 ∧ q.2 = p.2) := by
      intro hc
      exact h (Prod.ext_iff.mpr ⟨hc.1, hc.2⟩)
    simp only [Fin.mk_val]  -- no-op placeholder simplification
    rw [if_neg hne]
  next => rfl

@[simp] theorem set_at_pos_board (g : Game) (p : Pos) (v : Option Piece) :
    (g.set_at_pos p v).board = boardSet g.board p v := by
  cases v <;> rfl

@[simp] theorem set_at_pos_wcl (g : Game) (p : Pos) (v : Option Piece) :
    (g.set_at_pos p v).white_can_castle_left = g.white_can_castle_left := by
  cases v <;> rfl

@[simp] theorem set_at_pos_wcr (g : Game) (p : Pos) (v : Option Piece) :
    (g.set_at_pos p v).white_can_castle_right = g.white_can_castle_right := by
  cases v <;> rfl

@[simp] theorem set_at_pos_bcl (g : Game) (p : Pos) (v : Option Piece) :
    (g.set_at_pos p v).black_can_castle_left = g.black_can_castle_left := by
  cases v <;> rfl

@[simp] theorem set_at_pos_bcr (g : Game) (p : Pos) (v : Option Piece) :
    (g.set_at_pos p v).black_can_castle_right = g.black_can_castle_right := by
  cases v <;> rfl

@[simp] theorem set_at_pos_clock (g : Game) (p : Pos) (v : Option Piece) :
    (g.set_at_pos p v).seventy_five_move_rule = g.seventy_five_move_rule := by
  cases v <;> rfl

@[simp] theorem set_at_pos_last (g : Game) (p : Pos) (v : Option Piece) :
    (g.set_at_pos p v).last = g.last := by
  cases v <;> rfl

@[simp] theorem set_at_pos_history (g : Game) (p : Pos) (v : Option Piece) :
    (g.set_at_pos p v).board_history = g.board_history := by
  cases v <;> rfl

@[simp] theorem save_board_wcl (g : Game) :
    (g.save_board).white_can_castle_left = g.white_can_castle_left := rfl

@[simp] theorem save_board_wcr (g : Game) :
    (g.save_board).white_can_castle_right = g.white_can_castle_right := rfl

@[simp] theorem save_board_bcl (g : Game) :
    (g.save_board).black_can_castle_left = g.black_can_castle_left := rfl

@[simp] theorem save_board_bcr (g : Game) :
    (g.save_board).black_can_castle_right = g.black_can_castle_right := rfl

@[simp] theorem update_last_board (g : Game) (l : Move) :
    ({ g with last := l } : Game).board = g.board := rfl

@[simp] theorem update_last_clock (g : Game) (l : Move) :
    ({ g with last := l } : Game).seventy_five_move_rule =
      g.seventy_five_move_rule := rfl

@[simp] theorem update_last_wcl (g : Game) (l : Move) :
    ({ g with last := l } : Game).white_can_castle_left =
      g.white_can_castle_left := rfl

@[simp] theorem update_last_wcr (g : Game) (l : Move) :
    ({ g with last := l } : Game).white_can_castle_right =
      g.white_can_castle_right := rfl

@[simp] theorem update_last_bcl (g : Game) (l : Move) :
    ({ g with last := l } : Game).black_can_castle_left =
      g.black_can_castle_left := rfl

@[simp] theorem update_last_bcr (g : Game) (l : Move) :
    ({ g with last := l } : Game).black_can_castle_right =
      g.black_can_castle_right := rfl

@[simp] theorem movePieceClock_wcl (g : Game) (o : Option Piece) :
    (movePieceClock g o).white_can_castle_left = g.white_can_castle_left := by
  unfold movePieceClock; split <;> rfl

@[simp] theorem movePieceClock_wcr (g : Game) (o : Option Piece) :
    (movePieceClock g o).white_can_castle_right = g.white_can_castle_right := by
  unfold movePieceClock; split <;> rfl

@[simp] theorem movePieceClock_bcl (g : Game) (o : Option Piece) :
    (movePieceClock g o).black_can_castle_left = g.black_can_castle_left := by
  unfold movePieceClock; split <;> rfl

@[simp] theorem movePieceClock_bcr (g : Game) (o : Option Piece) :
    (movePieceClock g o).black_can_castle_right = g.black_can_castle_right := by
  unfold movePieceClock; split <;> rfl

theorem move_piece_oob (g : Game) (f t : Pos)
    (hb : 7 < f.1 ∨ 7 < f.2 ∨ 7 < t.1 ∨ 7 < t.2) :
    g.move_piece f t = (g, none) := by
  unfold Game.move_piece; rw [if_pos hb]

theorem move_piece_empty (g : Game) (f t : Pos)
    (hb : ¬(7 < f.1 ∨ 7 < f.2 ∨ 7 < t.1 ∨ 7 < t.2))
    (hm : g.get_from_pos f = none) :
    g.move_piece f t = (g, none) := by
  unfold Game.move_piece; rw [if_neg hb]; simp only [hm]

theorem move_piece_fst (g : Game) (f t : Pos) (p : Piece)
    (hb : ¬(7 < f.1 ∨ 7 < f.2 ∨ 7 < t.1 ∨ 7 < t.2))
    (hm : g.get_from_pos f = some p) :
    (g.move_piece f t).1 =
      { ((movePieceUpdate (movePieceClock g (g.get_from_pos t)) p
            (g.get_from_pos f) f t).1.set_at_pos t
          (movePieceUpdate (movePieceClock g (g.get_from_pos t)) p
            (g.get_from_pos f) f t).2).set_at_pos f none with
        last := (f, t) } := by
  unfold Game.move_piece
  rw [if_neg hb]
  rw [hm]

theorem move_piece_snd (g : Game) (f t : Pos) (p : Piece)
    (hb : ¬(7 < f.1 ∨ 7 < f.2 ∨ 7 < t.1 ∨ 7 < t.2))
    (hm : g.get_from_pos f = some p) :
    (g.move_piece f t).2 = g.get_from_pos t := by
  unfold Game.move_piece
  rw [if_neg hb]
  rw [hm]

theorem movePieceUpdate_clock (g1 : Game) (p : Piece) (m : Option Piece)
    (f t : Pos) :
    (movePieceUpdate g1 p m f t).1.seventy_five_move_rule =
        g1.seventy_five_move_rule ∨
      (movePieceUpdate g1 p m f t).1.seventy_five_move_rule = 0 := by
  obtain ⟨c, k⟩ := p
  cases k <;> cases c <;> simp [movePieceUpdate] <;> split_ifs <;> simp

theorem movePieceUpdate_flagsOr (g1 : Game) (p : Piece) (m : Option Piece)
    (f t : Pos) :
    ((movePieceUpdate g1 p m f t).1.white_can_castle_left =
        g1.white_can_castle_left ∨
      (movePieceUpdate g1 p m f t).1.white_can_castle_left = false) ∧
    ((movePieceUpdate g1 p m f t).1.white_can_castle_right =
        g1.white_can_castle_right ∨
      (movePieceUpdate g1 p m f t).1.white_can_castle_right = false) ∧
    ((movePieceUpdate g1 p m f t).1.black_can_castle_left =
        g1.black_can_castle_left ∨
      (movePieceUpdate g1 p m f t).1.black_can_castle_left = false) ∧
    ((movePieceUpdate g1 p m f t).1.black_can_castle_right =
        g1.black_can_castle_right ∨
      (movePieceUpdate g1 p m f t).1.black_can_castle_right = false) := by
  obtain ⟨c, k⟩ := p
  cases k <;> cases c <;> simp [movePieceUpdate] <;> split_ifs <;> simp

theorem movePieceUpdate_king (g1 : Game) (c : Color) (m : Option Piece)
    (f t : Pos) :
    (c = Color.White →
      (movePieceUpdate g1 ⟨c, Kind.King⟩ m f t).1.white_can_castle_left = false ∧
      (movePieceUpdate g1 ⟨c, Kind.King⟩ m f t).1.white_can_castle_right = false) ∧
    (c = Color.Black →
      (movePieceUpdate g1 ⟨c, Kind.King⟩ m f t).1.black_can_castle_left = false ∧
      (movePieceUpdate g1 ⟨c, Kind.King⟩ m f t).1.black_can_castle_right = false) := by
  cases c <;> simp [movePieceUpdate]

theorem movePieceUpdate_rook (g1 : Game) (c : Color) (m : Option Piece)
    (f t : Pos) :
    (c = Color.White → f.1 = 0 →
      (movePieceUpdate g1 ⟨c, Kind.Rook⟩ m f t).1.white_can_castle_left = false) ∧
    (c = Color.White → f.1 = 7 →
      (movePieceUpdate g1 ⟨c, Kind.Rook⟩ m f t).1.white_can_castle_right = false) ∧
    (c = Color.Black → f.1 = 0 →
      (movePieceUpdate g1 ⟨c, Kind.Rook⟩ m f t).1.black_can_castle_left = false) ∧
    (c = Color.Black → f.1 = 7 →
      (movePieceUpdate g1 ⟨c, Kind.Rook⟩ m f t).1.black_can_castle_right = false) := by
  cases c <;> refine ⟨?_, ?_, ?_, ?_⟩ <;> intro hc hf <;> simp_all [movePieceUpdate] <;>
    split_ifs <;> simp_all

/-- C10: a self-move of an occupied, in-bounds square captures the piece
itself: it is returned, the square ends empty, the halfmove clock resets,
and the self-move is recorded as the last move. -/
theorem C10_self_move_captures (g : Game) (p : Pos) (piece : Piece)
    (h1 : p.1 ≤ 7) (h2 : p.2 ≤ 7) (hp : g.get_from_pos p = some piece) :
    (g.move_piece p p).2 = some piece ∧
    (g.move_piece p p).1.get_from_pos p = none ∧
    (g.move_piece p p).1.seventy_five_move_rule = 0 ∧
    (g.move_piece p p).1.last = (p, p) := by
  have hb : ¬(7 < p.1 ∨ 7 < p.2 ∨ 7 < p.1 ∨ 7 < p.2) := by omega
  have h8 : p.1 < 8 := by omega
  have h8' : p.2 < 8 := by omega
  refine ⟨?_, ?_, ?_, ?_⟩
  · rw [move_piece_snd g p p piece hb hp, hp]
  · rw [move_piece_fst g p p piece hb hp]
    simp only [Game.get_from_pos, update_last_board, set_at_pos_board]
    exact boardGet_boardSet_self _ p none h8 h8'
  · rw [move_piece_fst g p p piece hb hp]
    simp only [update_last_clock, set_at_pos_clock, hp]
    have hclock : movePieceClock g (some piece) =
        { g with seventy_five_move_rule := 0 } := rfl
    rcases movePieceUpdate_clock (movePieceClock g (some piece)) piece
        (some piece) p p with h | h
    · rw [h, hclock]
    · rw [h]
  · rw [move_piece_fst g p p piece hb hp]

/-- Witness for C10 at a concrete input: the white rook on a1 of the
starting position, self-moved, is returned as the capture and removed. -/
theorem C10_self_move_captures_witness :
    (Game.new.move_piece (0, 0) (0, 0)).2 = some ⟨Color.White, Kind.Rook⟩ ∧
    (Game.new.move_piece (0, 0) (0, 0)).1.get_from_pos (0, 0) = none ∧
    (Game.new.move_piece (0, 0) (0, 0)).1.seventy_five_move_rule = 0 ∧
    (Game.new.move_piece (0, 0) (0, 0)).1.last = ((0, 0), (0, 0)) :=
  C10_self_move_captures Game.new (0, 0) ⟨Color.White, Kind.Rook⟩ (by decide)
    (by decide) (by decide)

theorem move_piece_flags_mono (g : Game) (f t : Pos) :
    (g.white_can_castle_left = false →
      (g.move_piece f t).1.white_can_castle_left = false) ∧
    (g.white_can_castle_right = false →
      (g.move_piece f t).1.white_can_castle_right = false) ∧
    (g.black_can_castle_left = false →
      (g.move_piece f t).1.black_can_castle_left = false) ∧
    (g.black_can_castle_right = false →
      (g.move_piece f t).1.black_can_castle_right = false) := by
  by_cases hb : 7 < f.1 ∨ 7 < f.2 ∨ 7 < t.1 ∨ 7 < t.2
  · rw [move_piece_oob g f t hb]; exact ⟨id, id, id, id⟩
  · cases hm : g.get_from_pos f with
    | none => rw [move_piece_empty g f t hb hm]; exact ⟨id, id, id, id⟩
    | some p =>
      rw [move_piece_fst g f t p hb hm]
      simp only [update_last_wcl, update_last_wcr, update_last_bcl,
        update_last_bcr, set_at_pos_wcl, set_at_pos_wcr, set_at_pos_bcl,
        set_at_pos_bcr, hm]
      have hor := movePieceUpdate_flagsOr (movePieceClock g (g.get_from_pos t))
        p (some p) f t
      refine ⟨fun h => ?_, fun h => ?_, fun h => ?_, fun h => ?_⟩
      · rcases hor.1 with h1 | h1 <;> rw [h1] <;> simp [h]
      · rcases hor.2.1 with h1 | h1 <;> rw [h1] <;> simp [h]
      · rcases hor.2.2.1 with h1 | h1 <;> rw [h1] <;> simp [h]
      · rcases hor.2.2.2 with h1 | h1 <;> rw [h1] <;> simp [h]

theorem movePiecesLoop_flags_mono (moves : List Move) :
    ∀ (g : Game) (cap : Option Piece),
      (g.white_can_castle_left = false →
        (Game.movePiecesLoop g moves cap).1.white_can_castle_left = false) ∧
      (g.white_can_castle_right = false →
        (Game.movePiecesLoop g moves cap).1.white_can_castle_right = false) ∧
      (g.black_can_castle_left = false →
        (Game.movePiecesLoop g moves cap).1.black_can_castle_left = false) ∧
      (g.black_can_castle_right = false →
        (Game.movePiecesLoop g moves cap).1.black_can_castle_right = false) := by
  induction moves with
  | nil => intro g cap; simp [Game.movePiecesLoop]
  | cons v rest ih =>
    intro g cap
    simp only [Game.movePiecesLoop]
    have hmp := move_piece_flags_mono g v.1 v.2
    cases hs : (g.move_piece v.1 v.2).2 <;>
      simp only [hs] <;>
      refine ⟨fun h => ?_, fun h => ?_, fun h => ?_, fun h => ?_⟩ <;>
      · first
        | exact ((ih _ _).1 (by simp_all))
        | exact ((ih _ _).2.1 (by simp_all))
        | exact ((ih _ _).2.2.1 (by simp_all))
        | exact ((ih _ _).2.2.2 (by simp_all))

/-- C9: the four castling flags are monotone — `set_at_pos` never changes
them, and `move_piece` / `move_pieces` never turn a false flag true — and a
flag turns false whenever an executed in-bounds move's mover is the
corresponding king, or the corresponding rook departing its original
square. -/
theorem C9_castling_flags_latch :
    (∀ (g : Game) (p : Pos) (v : Option Piece),
      (g.set_at_pos p v).white_can_castle_left = g.white_can_castle_left ∧
      (g.set_at_pos p v).white_can_castle_right = g.white_can_castle_right ∧
      (g.set_at_pos p v).black_can_castle_left = g.black_can_castle_left ∧
      (g.set_at_pos p v).black_can_castle_right = g.black_can_castle_right) ∧
    (∀ (g : Game) (f t : Pos),
      (g.white_can_castle_left = false →
        (g.move_piece f t).1.white_can_castle_left = false) ∧
      (g.white_can_castle_right = false →
        (g.move_piece f t).1.white_can_castle_right = false) ∧
      (g.black_can_castle_left = false →
        (g.move_piece f t).1.black_can_castle_left = false) ∧
      (g.black_can_castle_right = false →
        (g.move_piece f t).1.black_can_castle_right = false)) ∧
    (∀ (g : Game) (ms : List Move),
      (g.white_can_castle_left = false →
        (g.move_pieces ms).1.white_can_castle_left = false) ∧
      (g.white_can_castle_right = false →
        (g.move_pieces ms).1.white_can_castle_right = false) ∧
      (g.black_can_castle_left = false →
        (g.move_pieces ms).1.black_can_castle_left = false) ∧
      (g.black_can_castle_right = false →
        (g.move_pieces ms).1.black_can_castle_right = false)) ∧
    (∀ (g : Game) (f t : Pos), f.1 ≤ 7 → f.2 ≤ 7 → t.1 ≤ 7 → t.2 ≤ 7 →
      (g.get_from_pos f = some ⟨Color.White, Kind.King⟩ →
        (g.move_piece f t).1.white_can_castle_left = false ∧
        (g.move_piece f t).1.white_can_castle_right = false) ∧
      (g.get_from_pos f = some ⟨Color.Black, Kind.King⟩ →
        (g.move_piece f t).1.black_can_castle_left = false ∧
        (g.move_piece f t).1.black_can_castle_right = false)) ∧
    (∀ (g : Game) (t : Pos), t.1 ≤ 7 → t.2 ≤ 7 →
      (g.get_from_pos (0, 0) = some ⟨Color.White, Kind.Rook⟩ →
        (g.move_piece (0, 0) t).1.white_can_castle_left = false) ∧
      (g.get_from_pos (7, 0) = some ⟨Color.White, Kind.Rook⟩ →
        (g.move_piece (7, 0) t).1.white_can_castle_right = false) ∧
      (g.get_from_pos (0, 7) = some ⟨Color.Black, Kind.Rook⟩ →
        (g.move_piece (0, 7) t).1.black_can_castle_left = false) ∧
      (g.get_from_pos (7, 7) = some ⟨Color.Black, Kind.Rook⟩ →
        (g.move_piece (7, 7) t).1.black_can_castle_right = false)) := by
  refine ⟨?_, ?_, ?_, ?_, ?_⟩
  · intro g p v
    exact ⟨set_at_pos_wcl g p v, set_at_pos_wcr g p v, set_at_pos_bcl g p v,
      set_at_pos_bcr g p v⟩
  · intro g f t
    exact move_piece_flags_mono g f t
  · intro g ms
    unfold Game.move_pieces
    split
    · simp
    · exact movePiecesLoop_flags_mono ms g none
  · intro g f t hf1 hf2 ht1 ht2
    have hb : ¬(7 < f.1 ∨ 7 < f.2 ∨ 7 < t.1 ∨ 7 < t.2) := by omega
    constructor
    · intro hm
      rw [move_piece_fst g f t _ hb hm]
      simp only [update_last_wcl, update_last_wcr, set_at_pos_wcl,
        set_at_pos_wcr]
      exact (movePieceUpdate_king _ Color.White _ f t).1 rfl
    · intro hm
      rw [move_piece_fst g f t _ hb hm]
      simp only [update_last_bcl, update_last_bcr, set_at_pos_bcl,
        set_at_pos_bcr]
      exact (movePieceUpdate_king _ Color.Black _ f t).2 rfl
  · intro g t ht1 ht2
    have hb : ∀ a b : Nat, a ≤ 7 → b ≤ 7 →
        ¬(7 < a ∨ 7 < b ∨ 7 < t.1 ∨ 7 < t.2) := by omega
    refine ⟨fun hm => ?_, fun hm => ?_, fun hm => ?_, fun hm => ?_⟩
    · rw [move_piece_fst g (0, 0) t _ (hb 0 0 (by norm_num) (by norm_num)) hm]
      simp only [update_last_wcl, set_at_pos_wcl]
      exact (movePieceUpdate_rook _ Color.White _ (0, 0) t).1 rfl rfl
    · rw [move_piece_fst g (7, 0) t _ (hb 7 0 (by norm_num) (by norm_num)) hm]
      simp only [update_last_wcr, set_at_pos_wcr]
      exact (movePieceUpdate_rook _ Color.White _ (7, 0) t).2.1 rfl rfl
    · rw [move_piece_fst g (0, 7) t _ (hb 0 7 (by norm_num) (by norm_num)) hm]
      simp only [update_last_bcl, set_at_pos_bcl]
      exact (movePieceUpdate_rook _ Color.Black _ (0, 7) t).2.2.1 rfl rfl
    · rw [move_piece_fst g (7, 7) t _ (hb 7 7 (by norm_num) (by norm_num)) hm]
      simp only [update_last_bcr, set_at_pos_bcr]
      exact (movePieceUpdate_rook _ Color.Black _ (7, 7) t).2.2.2 rfl rfl

/-- Witness for C9: the white king leaving e1 on the starting position turns
both white flags false, and a cleared flag stays false across a further
move. -/
theorem C9_castling_flags_latch_witness :
    ((Game.new.move_piece (4, 0) (4, 3)).1.white_can_castle_left = false ∧
      (Game.new.move_piece (4, 0) (4, 3)).1.white_can_castle_right = false) ∧
    (((Game.new.move_piece (4, 0) (4, 3)).1.move_piece (0, 1)
        (0, 2)).1.white_can_castle_left = false) := by
  have hking : Game.new.get_from_pos (4, 0) = some ⟨Color.White, Kind.King⟩ := by
    decide
  have h1 := (C9_castling_flags_latch.2.2.2.1 Game.new (4, 0) (4, 3)
    (by decide) (by decide) (by decide) (by decide)).1 hking
  refine ⟨h1, ?_⟩
  exact (C9_castling_flags_latch.2.1 _ (0, 1) (0, 2)).1 h1.1

theorem movePiecesLoop_eq_fold (ms : List Move) :
    ∀ (g : Game) (cap : Option Piece),
      Game.movePiecesLoop g ms cap =
        ms.foldl
          (fun st v =>
            let step := st.1.move_piece v.1 v.2
            let g2 :=
              if step.2.isSome then { step.1 with board_history := [] }
              else step.1
            (g2.save_board, if step.2.isSome then step.2 else st.2))
          (g, cap) := by
  induction ms with
  | nil => intro g cap; rfl
  | cons v rest ih =>
    intro g cap
    simp only [Game.movePiecesLoop, List.foldl_cons]
    cases hs : (g.move_piece v.1 v.2).2 <;>
      simp only [hs, Option.isSome_none, Option.isSome_some, if_true, if_false,
        Bool.false_eq_true, ite_false, ite_true] <;>
      exact ih _ _

/-- C8: `move_pieces` validates every sub-move's bounds up front — any
out-of-bounds endpoint rejects the whole list, returning `none` with the
game (board, flags, clock, history, last move) unchanged — and otherwise
behaves as the claim describes: sub-moves applied in order via `move_piece`,
a snapshot after each, history cleared on any capture, and the most recent
non-empty capture returned (`spec_apply`). -/
theorem C8_move_pieces_all_or_nothing (g : Game) (ms : List Move) :
    (ms.any moveOOB = true → g.move_pieces ms = (g, none)) ∧
    (ms.any moveOOB = false → g.move_pieces ms = spec_apply g ms) := by
  constructor
  · intro h
    simp only [Game.move_pieces, h, if_true, ite_true]
  · intro h
    simp only [Game.move_pieces, h, Bool.false_eq_true, if_false, ite_false]
    exact movePiecesLoop_eq_fold ms g none

/-- Witness for C8: an out-of-bounds sub-move rejects wholesale on the start
position; the double-step e2–e4 agrees with the claim-side application. -/
theorem C8_move_pieces_all_or_nothing_witness :
    Game.new.move_pieces [((0, 0), (0, 9))] = (Game.new, none) ∧
    Game.new.move_pieces [((4, 1), (4, 3))] =
      spec_apply Game.new [((4, 1), (4, 3))] :=
  ⟨(C8_move_pieces_all_or_nothing Game.new _).1 (by decide),
    (C8_move_pieces_all_or_nothing Game.new _).2 (by decide)⟩

theorem victoryLoop_ne_draw (cs : List Color) :
    ∀ (g : Game) (c : Color),
      victoryLoop g cs ≠ some (VictoryStatus.Draw, c) := by
  induction cs with
  | nil => intro g c h; simp [victoryLoop] at h
  | cons col rest ih =>
    intro g c h
    simp only [victoryLoop] at h
    split_ifs at h <;> first | exact ih g c h | simp_all

/-- C2: `check_victory` reports a Draw exactly when the halfmove clock has
reached 75, or the history holds at least 5 snapshots of which at least 5
(including itself) match the most recent one cell for cell; the
color-examination phase never produces a Draw. -/
theorem C2_draw_thresholds (g : Game) :
    (∃ c, g.check_victory = some (VictoryStatus.Draw, c)) ↔
      (75 ≤ g.seventy_five_move_rule ∨
        (5 ≤ g.board_history.length ∧ 5 ≤ rep_matches g)) := by
  unfold Game.check_victory
  split_ifs with h1 h2
  · exact ⟨fun _ => Or.inl h1, fun _ => ⟨Color.White, rfl⟩⟩
  · exact ⟨fun _ => Or.inr h2, fun _ => ⟨Color.White, rfl⟩⟩
  · constructor
    · rintro ⟨c, hc⟩
      exact absurd hc (victoryLoop_ne_draw _ g c)
    · rintro (h | h)
      · exact absurd h h1
      · exact absurd h h2

theorem any_moves_iff (g : Game) (l : List (Pos × Piece)) :
    (l.any fun pc => decide (0 < (g.valid_moves pc.1).length)) = true ↔
      ¬(∀ pc ∈ l, g.valid_moves pc.1 = []) := by
  rw [List.any_eq_true]
  constructor
  · rintro ⟨pc, hmem, hval⟩ hall
    rw [hall pc hmem] at hval
    simp at hval
  · intro h
    rcases not_forall.mp h with ⟨pc, hpc⟩
    rcases Classical.not_imp.mp hpc with ⟨hmem, hne⟩
    exact ⟨pc, hmem, by simpa [List.length_pos] using hne⟩

theorem victoryLoop_cons (g : Game) (c : Color) (rest : List Color) :
    victoryLoop g (c :: rest) =
      match (if ∀ pc ∈ g.by_color c, g.valid_moves pc.1 = [] then
          colorVerdict g c else none) with
      | some r => some r
      | none => victoryLoop g rest := by
  have hopp : (if c = Color.White then Color.Black else Color.White) =
      otherColor c := by cases c <;> rfl
  by_cases hall : ∀ pc ∈ g.by_color c, g.valid_moves pc.1 = []
  · rw [if_pos hall]
    have hb : ((g.by_color c).any fun pc =>
        decide (0 < (g.valid_moves pc.1).length)) = false := by
      rw [← Bool.not_eq_true]
      exact fun hh => ((any_moves_iff g _).mp hh) hall
    rw [victoryLoop]
    unfold colorVerdict
    simp only [hb, Bool.false_eq_true, if_false, ite_false, hopp]
    split_ifs <;> rfl
  · rw [if_neg hall]
    have hb : ((g.by_color c).any fun pc =>
        decide (0 < (g.valid_moves pc.1).length)) = true :=
      (any_moves_iff g _).mpr hall
    rw [victoryLoop]
    simp only [hb, if_true, ite_true]

/-- C3: when neither draw threshold holds, `check_victory` behaves as the
claim describes — Black examined before White, the first zero-move color
yielding Checkmate for the opponent when in check, else Stalemate for the
opponent when it was not the last mover, else examination proceeding, with
no result when neither color qualifies (`claim_outcome`). -/
theorem C3_examination_order (g : Game)
    (h75 : ¬75 ≤ g.seventy_five_move_rule)
    (hrep : ¬(5 ≤ g.board_history.length ∧ 5 ≤ rep_matches g)) :
    g.check_victory = claim_outcome g := by
  unfold Game.check_victory
  rw [if_neg h75, if_neg hrep]
  rw [victoryLoop_cons, victoryLoop_cons]
  unfold claim_outcome
  generalize (if ∀ pc ∈ g.by_color Color.Black, g.valid_moves pc.1 = [] then
    colorVerdict g Color.Black else none) = a
  generalize (if ∀ pc ∈ g.by_color Color.White, g.valid_moves pc.1 = [] then
    colorVerdict g Color.White else none) = b
  cases a <;> cases b <;> rfl

/-- Witness for C3: the standard start position (clock 0, one snapshot) is
still in progress, in agreement with the claim-shaped evaluator. -/
theorem C3_examination_order_witness :
    Game.new.check_victory = claim_outcome Game.new :=
  C3_examination_order Game.new (by decide) (by decide)

theorem mem_if_singleton {α : Type} (x a : α) (c : Prop) [Decidable c] :
    x ∈ (if c then [a] else []) ↔ c ∧ x = a := by
  split_ifs with h <;> simp [h]

theorem mem_if_if_singleton {α : Type} (x a : α) (c d : Prop) [Decidable c]
    [Decidable d] :
    x ∈ (if c then (if d then [a] else []) else []) ↔ (c ∧ d) ∧ x = a := by
  split_ifs with h1 h2 <;> simp_all

theorem mem_append_map_singleton_len2 (seq : List Move) (A : List (List Move))
    (B : List Pos) (pos : Pos) :
    (seq ∈ A ++ B.map (fun v => [(pos, v)]) ∧ seq.length = 2) ↔
      (seq ∈ A ∧ seq.length = 2) := by
  constructor
  · rintro ⟨hm, hl⟩
    rcases List.mem_append.mp hm with h | h
    · exact ⟨h, hl⟩
    · rcases List.mem_map.mp h with ⟨v, _, rfl⟩
      simp at hl
  · rintro ⟨hm, hl⟩
    exact ⟨List.mem_append.mpr (Or.inl hm), hl⟩

theorem passantTest_iff (g : Game) (p : Piece) (pos : Pos)
    (adj fr rank : Nat) :
    passantTest g p pos adj fr rank = true ↔
      ((∃ other, g.get_from_pos (adj, pos.2) = some other ∧
          other.color ≠ p.color) ∧
        pos.2 = rank ∧ g.last = ((adj, fr), (adj, pos.2))) := by
  unfold passantTest
  cases hg : g.get_from_pos (adj, pos.2) with
  | none => simp
  | some o => simp [and_assoc]

theorem pawnScanWhite_fst (g : Game) (pos : Pos) (p : Piece) :
    (pawnScanWhite g pos p).1 =
      (if 0 < pos.1 ∧ pos.2 < 7 then
        (if passantTest g p pos (pos.1 - 1) (pos.2 + 2) 4 then
          [[((pos.1, pos.2), (pos.1 - 1, pos.2)),
            ((pos.1 - 1, pos.2), (pos.1 - 1, pos.2 + 1))]]
         else [])
       else []) ++
      (if pos.1 < 7 ∧ pos.2 < 7 then
        (if passantTest g p pos (pos.1 + 1) (pos.2 + 2) 4 then
          [[((pos.1, pos.2), (pos.1 + 1, pos.2)),
            ((pos.1 + 1, pos.2), (pos.1 + 1, pos.2 + 1))]]
         else [])
       else []) := by
  dsimp only [pawnScanWhite]
  split_ifs <;> rfl

theorem pawnScanBlack_fst (g : Game) (pos : Pos) (p : Piece) :
    (pawnScanBlack g pos p).1 =
      (if 0 < pos.1 ∧ 0 < pos.2 then
        (if passantTest g p pos (pos.1 - 1) (pos.2 - 2) 3 then
          [[((pos.1, pos.2), (pos.1 - 1, pos.2)),
            ((pos.1 - 1, pos.2), (pos.1 - 1, pos.2 - 1))]]
         else [])
       else []) ++
      (if pos.1 < 7 ∧ 0 < pos.2 then
        (if passantTest g p pos (pos.1 + 1) (pos.2 - 2) 3 then
          [[((pos.1, pos.2), (pos.1 + 1, pos.2)),
            ((pos.1 + 1, pos.2), (pos.1 + 1, pos.2 - 1))]]
         else [])
       else []) := by
  dsimp only [pawnScanBlack]
  split_ifs <;> rfl

/-- C1 (amended): for a pawn, the move generator emits a 2-sub-move
en-passant sequence exactly when an adjacent file exists whose square at the
pawn's own rank holds an opposing-color piece of ANY kind (the source never
inspects the kind), the pawn's rank equals the en-passant rank (4 for White,
3 for Black), and the immediately preceding recorded move was a two-square
straight move into that adjacent square; the emitted sequence steps onto the
adjacent square and then forward. -/
theorem C1_en_passant_emission (fuel : Nat) (g : Game) (pos : Pos)
    (piece : Piece) (seq : List Move)
    (hp : g.get_from_pos pos = some piece) (hk : piece.kind = Kind.Pawn) :
    (seq ∈ rawMovesAux (fuel + 1) g pos ∧ seq.length = 2) ↔
      ((0 < pos.1 ∧ enPassantCond g pos piece.color (pos.1 - 1) ∧
          seq = enPassantSeq pos (pos.1 - 1) (pawnForward piece.color pos.2)) ∨
        (pos.1 < 7 ∧ enPassantCond g pos piece.color (pos.1 + 1) ∧
          seq = enPassantSeq pos (pos.1 + 1) (pawnForward piece.color pos.2))) := by
  obtain ⟨c, k⟩ := piece
  simp only at hk
  subst hk
  simp only [rawMovesAux, hp]
  cases c
  · rw [mem_append_map_singleton_len2 seq _ _ pos, pawnScanWhite_fst,
      List.mem_append, mem_if_if_singleton, mem_if_if_singleton,
      passantTest_iff, passantTest_iff]
    unfold enPassantCond enPassantSeq pawnForward
    dsimp only
    constructor
    · rintro ⟨h | h, hlen⟩
      · obtain ⟨⟨⟨h1, h2⟩, hex, h3, h4⟩, rfl⟩ := h
        exact Or.inl ⟨h1, ⟨hex, h3, h4⟩, rfl⟩
      · obtain ⟨⟨⟨h1, h2⟩, hex, h3, h4⟩, rfl⟩ := h
        exact Or.inr ⟨h1, ⟨hex, h3, h4⟩, rfl⟩
    · rintro (⟨h1, ⟨hex, h3, h4⟩, rfl⟩ | ⟨h1, ⟨hex, h3, h4⟩, rfl⟩)
      · exact ⟨Or.inl ⟨⟨⟨h1, by omega⟩, hex, h3, h4⟩, rfl⟩, rfl⟩
      · exact ⟨Or.inr ⟨⟨⟨h1, by omega⟩, hex, h3, h4⟩, rfl⟩, rfl⟩
  · rw [mem_append_map_singleton_len2 seq _ _ pos, pawnScanBlack_fst,
      List.mem_append, mem_if_if_singleton, mem_if_if_singleton,
      passantTest_iff, passantTest_iff]
    unfold enPassantCond enPassantSeq pawnForward
    dsimp only
    constructor
    · rintro ⟨h | h, hlen⟩
      · obtain ⟨⟨⟨h1, h2⟩, hex, h3, h4⟩, rfl⟩ := h
        exact Or.inl ⟨h1, ⟨hex, h3, h4⟩, rfl⟩
      · obtain ⟨⟨⟨h1, h2⟩, hex, h3, h4⟩, rfl⟩ := h
        exact Or.inr ⟨h1, ⟨hex, h3, h4⟩, rfl⟩
    · rintro (⟨h1, ⟨hex, h3, h4⟩, rfl⟩ | ⟨h1, ⟨hex, h3, h4⟩, rfl⟩)
      · exact ⟨Or.inl ⟨⟨⟨h1, by omega⟩, hex, h3, h4⟩, rfl⟩, rfl⟩
      · exact ⟨Or.inr ⟨⟨⟨h1, by omega⟩, hex, h3, h4⟩, rfl⟩, rfl⟩

/-- Witness for C1 (amended) at a concrete input: the white pawn on b5 of
`passantCounterGame`, whose left-adjacent square holds the black rook that
just moved a7–a5. -/
theorem C1_en_passant_emission_witness :
    (enPassantSeq (1, 4) 0 5 ∈ rawMovesAux (63 + 1) passantCounterGame (1, 4) ∧
        (enPassantSeq (1, 4) 0 5).length = 2) ↔
      ((0 < (1 : Nat) ∧
          enPassantCond passantCounterGame (1, 4) Color.White 0 ∧
          enPassantSeq (1, 4) 0 5 =
            enPassantSeq (1, 4) 0 (pawnForward Color.White 4)) ∨
        ((1 : Nat) < 7 ∧
          enPassantCond passantCounterGame (1, 4) Color.White 2 ∧
          enPassantSeq (1, 4) 0 5 =
            enPassantSeq (1, 4) 2 (pawnForward Color.White 4))) :=
  C1_en_passant_emission 63 passantCounterGame (1, 4)
    ⟨Color.White, Kind.Pawn⟩ (enPassantSeq (1, 4) 0 5) (by decide) rfl

/-- Counterexample to C1 as stated: on `passantCounterGame` the adjacent
piece is a black ROOK, not a pawn, and the last move was its two-square
slide a7–a5; the generator nevertheless emits the 2-sub-move en-passant
sequence, so the claim's "only when the adjacent file holds an opposing
pawn" is false on the code. -/
theorem C1_en_passant_emission_counterexample :
    enPassantSeq (1, 4) 0 5 ∈ passantCounterGame.raw_moves (1, 4) ∧
    passantCounterGame.get_from_pos (0, 4) =
      some ⟨Color.Black, Kind.Rook⟩ ∧
    passantCounterGame.last = ((0, 6), (0, 4)) := by decide

theorem movePieceClock_board (g : Game) (o : Option Piece) :
    (movePieceClock g o).board = g.board := by
  unfold movePieceClock; split <;> rfl

theorem movePieceUpdate_board (g1 : Game) (p : Piece) (m : Option Piece)
    (f t : Pos) : (movePieceUpdate g1 p m f t).1.board = g1.board := by
  obtain ⟨c, k⟩ := p
  cases k <;> cases c <;> simp only [movePieceUpdate] <;> split_ifs <;> rfl

theorem castleLeftScan_char (ic : Game → Color → Bool) (g : Game) (c : Color)
    (y : Nat) (hy : y ≤ 7)
    (hp : g.get_from_pos (4, y) = some ⟨c, Kind.King⟩) :
    castleLeftScan ic g (4, y) ⟨c, Kind.King⟩ =
      if (g.get_from_pos (3, y) = none ∧
          ic (g.move_piece (4, y) (3, y)).1 c = false ∧
          g.get_from_pos (1, y) = none ∧
          g.get_from_pos (0, y) = some ⟨c, Kind.Rook⟩) then
        [castleSeqLeft y] else [] := by
  have hb : ¬(7 < (4, y).1 ∨ 7 < (4, y).2 ∨ 7 < (3, y).1 ∨ 7 < (3, y).2) := by
    simp; omega
  have hfst := move_piece_fst g (4, y) (3, y) _ hb hp
  have h40 : (g.move_piece (4, y) (3, y)).1.get_from_pos (4, y) = none := by
    rw [hfst]
    simp only [Game.get_from_pos, update_last_board, set_at_pos_board]
    exact boardGet_boardSet_self _ _ _ (by norm_num) (by omega)
  have h10 : (g.move_piece (4, y) (3, y)).1.get_from_pos (1, y) =
      g.get_from_pos (1, y) := by
    rw [hfst]
    simp only [Game.get_from_pos, update_last_board, set_at_pos_board]
    rw [boardGet_boardSet_ne _ _ _ _ (by simp [Prod.ext_iff]),
      boardGet_boardSet_ne _ _ _ _ (by simp [Prod.ext_iff]),
      movePieceUpdate_board, movePieceClock_board]
  have h00 : (g.move_piece (4, y) (3, y)).1.get_from_pos (0, y) =
      g.get_from_pos (0, y) := by
    rw [hfst]
    simp only [Game.get_from_pos, update_last_board, set_at_pos_board]
    rw [boardGet_boardSet_ne _ _ _ _ (by simp [Prod.ext_iff]),
      boardGet_boardSet_ne _ _ _ _ (by simp [Prod.ext_iff]),
      movePieceUpdate_board, movePieceClock_board]
  have hsnd := move_piece_snd g (4, y) (3, y) _ hb hp
  have hs2 : (g.move_piece (4, y) (3, y)).1.move_piece (4, y) (2, y) =
      ((g.move_piece (4, y) (3, y)).1, none) :=
    move_piece_empty _ _ _ (by simp; omega) h40
  have hM : castleLeftScan ic g (4, y) ⟨c, Kind.King⟩ =
      (if (g.get_from_pos (3, y)).isSome then []
       else if ic (g.move_piece (4, y) (3, y)).1 c then []
       else if g.get_from_pos (1, y) = none then
         (match g.get_from_pos (0, y) with
          | some rook =>
            if rook.color = c ∧ rook.kind = Kind.Rook then [castleSeqLeft y]
            else []
          | none => [])
       else []) := by
    dsimp only [castleLeftScan]
    norm_num
    rw [hsnd, hs2, h10, h00]
    dsimp only
    by_cases hic : ic (g.move_piece (4, y) (3, y)).1 c = true <;>
      simp [hic, castleSeqLeft]
  rw [hM]
  cases hg3 : g.get_from_pos (3, y) with
  | some x => simp
  | none =>
    simp only [Option.isSome_none, Bool.false_eq_true, if_false, ite_false]
    by_cases hic : ic (g.move_piece (4, y) (3, y)).1 c = true
    · simp [hic]
    · rw [Bool.not_eq_true] at hic
      simp only [hic, Bool.false_eq_true, if_false, ite_false]
      by_cases hg1 : g.get_from_pos (1, y) = none
      · rw [if_pos hg1]
        cases hg0 : g.get_from_pos (0, y) with
        | none =>
          exact (if_neg (fun hcond => Option.noConfusion hcond.2.2.2)).symm
        | some r =>
          obtain ⟨rc, rk⟩ := r
          dsimp only
          by_cases hr : rc = c ∧ rk = Kind.Rook
          · rw [if_pos hr]
            obtain ⟨rfl, rfl⟩ := hr
            rw [if_pos (by simp_all)]
          · rw [if_neg hr]
            exact (if_neg (fun hcond =>
              hr (by simpa [Piece.mk.injEq] using hcond.2.2.2))).symm
      · rw [if_neg hg1]
        exact (if_neg (fun hcond => hg1 hcond.2.2.1)).symm

theorem castleRightScan_char (ic : Game → Color → Bool) (g : Game) (c : Color)
    (y : Nat) (hy : y ≤ 7)
    (hp : g.get_from_pos (4, y) = some ⟨c, Kind.King⟩) :
    castleRightScan ic g (4, y) ⟨c, Kind.King⟩ =
      if (g.get_from_pos (5, y) = none ∧
          ic (g.move_piece (4, y) (5, y)).1 c = false ∧
          g.get_from_pos (6, y) = none ∧
          g.get_from_pos (7, y) = some ⟨c, Kind.Rook⟩) then
        [castleSeqRight y] else [] := by
  have hb : ¬(7 < (4, y).1 ∨ 7 < (4, y).2 ∨ 7 < (5, y).1 ∨ 7 < (5, y).2) := by
    simp; omega
  have hfst := move_piece_fst g (4, y) (5, y) _ hb hp
  have h40 : (g.move_piece (4, y) (5, y)).1.get_from_pos (4, y) = none := by
    rw [hfst]
    simp only [Game.get_from_pos, update_last_board, set_at_pos_board]
    exact boardGet_boardSet_self _ _ _ (by norm_num) (by omega)
  have h60 : (g.move_piece (4, y) (5, y)).1.get_from_pos (6, y) =
      g.get_from_pos (6, y) := by
    rw [hfst]
    simp only [Game.get_from_pos, update_last_board, set_at_pos_board]
    rw [boardGet_boardSet_ne _ _ _ _ (by simp [Prod.ext_iff]),
      boardGet_boardSet_ne _ _ _ _ (by simp [Prod.ext_iff]),
      movePieceUpdate_board, movePieceClock_board]
  have h70 : (g.move_piece (4, y) (5, y)).1.get_from_pos (7, y) =
      g.get_from_pos (7, y) := by
    rw [hfst]
    simp only [Game.get_from_pos, update_last_board, set_at_pos_board]
    rw [boardGet_boardSet_ne _ _ _ _ (by simp [Prod.ext_iff]),
      boardGet_boardSet_ne _ _ _ _ (by simp [Prod.ext_iff]),
      movePieceUpdate_board, movePieceClock_board]
  have hsnd := move_piece_snd g (4, y) (5, y) _ hb hp
  have hs2 : (g.move_piece (4, y) (5, y)).1.move_piece (4, y) (6, y) =
      ((g.move_piece (4, y) (5, y)).1, none) :=
    move_piece_empty _ _ _ (by simp; omega) h40
  have hM : castleRightScan ic g (4, y) ⟨c, Kind.King⟩ =
      (if (g.get_from_pos (5, y)).isSome then []
       else if ic (g.move_piece (4, y) (5, y)).1 c then []
       else if g.get_from_pos (6, y) = none then
         (match g.get_from_pos (7, y) with
          | some rook =>
            if rook.color = c ∧ rook.kind = Kind.Rook then [castleSeqRight y]
            else []
          | none => [])
       else []) := by
    dsimp only [castleRightScan]
    norm_num
    rw [hsnd, hs2, h60, h70]
    dsimp only
    by_cases hic : ic (g.move_piece (4, y) (5, y)).1 c = true <;>
      simp [hic, castleSeqRight]
  rw [hM]
  cases hg5 : g.get_from_pos (5, y) with
  | some x => simp
  | none =>
    simp only [Option.isSome_none, Bool.false_eq_true, if_false, ite_false]
    by_cases hic : ic (g.move_piece (4, y) (5, y)).1 c = true
    · simp [hic]
    · rw [Bool.not_eq_true] at hic
      simp only [hic, Bool.false_eq_true, if_false, ite_false]
      by_cases hg6 : g.get_from_pos (6, y) = none
      · rw [if_pos hg6]
        cases hg7 : g.get_from_pos (7, y) with
        | none =>
          exact (if_neg (fun hcond => Option.noConfusion hcond.2.2.2)).symm
        | some r =>
          obtain ⟨rc, rk⟩ := r
          dsimp only
          by_cases hr : rc = c ∧ rk = Kind.Rook
          · rw [if_pos hr]
            obtain ⟨rfl, rfl⟩ := hr
            rw [if_pos (by simp_all)]
          · rw [if_neg hr]
            exact (if_neg (fun hcond =>
              hr (by simpa [Piece.mk.injEq] using hcond.2.2.2))).symm
      · rw [if_neg hg6]
        exact (if_neg (fun hcond => hg6 hcond.2.2.1)).symm

theorem length_of_mem_map_singleton (seq : List Move) (B : List Pos)
    (pos : Pos) (h : seq ∈ B.map (fun v => [(pos, v)])) : seq.length = 1 := by
  rcases List.mem_map.mp h with ⟨v, _, rfl⟩
  rfl

theorem mem_castle_append (L R : List Move) (fL fR : Bool) (cL cR : Prop)
    [Decidable cL] [Decidable cR] (S : List Pos) (pos : Pos)
    (hLR : L ≠ R) (hL1 : L.length ≠ 1) (hR1 : R.length ≠ 1) :
    (L ∈ ((if fL then (if cL then [L] else []) else []) ++
        (if fR then (if cR then [R] else []) else [])) ++
        S.map (fun v => [(pos, v)]) ↔ (fL = true ∧ cL)) ∧
    (R ∈ ((if fL then (if cL then [L] else []) else []) ++
        (if fR then (if cR then [R] else []) else [])) ++
        S.map (fun v => [(pos, v)]) ↔ (fR = true ∧ cR)) := by
  constructor
  · rw [List.mem_append, List.mem_append]
    constructor
    · rintro ((h | h) | h)
      · split_ifs at h with h1 h2
        · exact ⟨h1, h2⟩
        · simp at h
        · simp at h
      · split_ifs at h with h1 h2
        · have hEq : L = R := by simpa using h
          exact absurd hEq hLR
        · simp at h
        · simp at h
      · exact absurd (length_of_mem_map_singleton _ _ _ h) hL1
    · rintro ⟨h1, h2⟩
      exact Or.inl (Or.inl (by simp [h1, h2]))
  · rw [List.mem_append, List.mem_append]
    constructor
    · rintro ((h | h) | h)
      · split_ifs at h with h1 h2
        · have hEq : R = L := by simpa using h
          exact absurd hEq.symm hLR
        · simp at h
        · simp at h
      · split_ifs at h with h1 h2
        · exact ⟨h1, h2⟩
        · simp at h
        · simp at h
      · exact absurd (length_of_mem_map_singleton _ _ _ h) hR1
    · rintro ⟨h1, h2⟩
      exact Or.inl (Or.inr (by simp [h1, h2]))

/-- C4 (amended): with a king on its home square, the generator offers the
queenside (kingside) castle sequence exactly when the castling flag is set,
the king's first-step square (d-file resp. f-file) is empty, stepping the
king there leaves it out of check, the square next to the rook (b-file
resp. g-file) is empty, and a same-color rook sits on its corner; the
legality filter only removes candidates, so every condition is necessary
for the sequence to survive into `valid_moves` — but emptiness of the
c-file square is NOT among the conditions (see the counterexample). -/
theorem C4_castling_conditions :
    (∀ (fuel : Nat) (g : Game),
      g.get_from_pos (4, 0) = some ⟨Color.White, Kind.King⟩ →
      ((castleSeqLeft 0 ∈ rawMovesAux (fuel + 1) g (4, 0) ↔
          (g.white_can_castle_left = true ∧
            g.get_from_pos (3, 0) = none ∧
            inCheckAux fuel (g.move_piece (4, 0) (3, 0)).1 Color.White = false ∧
            g.get_from_pos (1, 0) = none ∧
            g.get_from_pos (0, 0) = some ⟨Color.White, Kind.Rook⟩)) ∧
        (castleSeqRight 0 ∈ rawMovesAux (fuel + 1) g (4, 0) ↔
          (g.white_can_castle_right = true ∧
            g.get_from_pos (5, 0) = none ∧
            inCheckAux fuel (g.move_piece (4, 0) (5, 0)).1 Color.White = false ∧
            g.get_from_pos (6, 0) = none ∧
            g.get_from_pos (7, 0) = some ⟨Color.White, Kind.Rook⟩)))) ∧
    (∀ (fuel : Nat) (g : Game),
      g.get_from_pos (4, 7) = some ⟨Color.Black, Kind.King⟩ →
      ((castleSeqLeft 7 ∈ rawMovesAux (fuel + 1) g (4, 7) ↔
          (g.black_can_castle_left = true ∧
            g.get_from_pos (3, 7) = none ∧
            inCheckAux fuel (g.move_piece (4, 7) (3, 7)).1 Color.Black = false ∧
            g.get_from_pos (1, 7) = none ∧
            g.get_from_pos (0, 7) = some ⟨Color.Black, Kind.Rook⟩)) ∧
        (castleSeqRight 7 ∈ rawMovesAux (fuel + 1) g (4, 7) ↔
          (g.black_can_castle_right = true ∧
            g.get_from_pos (5, 7) = none ∧
            inCheckAux fuel (g.move_piece (4, 7) (5, 7)).1 Color.Black = false ∧
            g.get_from_pos (6, 7) = none ∧
            g.get_from_pos (7, 7) = some ⟨Color.Black, Kind.Rook⟩)))) ∧
    (∀ (fuel : Nat) (g : Game) (pos : Pos) (tc : Bool) (seq : List Move),
      seq ∈ checkValidMovesAux (fuel + 1) g pos tc →
        seq ∈ rawMovesAux fuel g pos) := by
  refine ⟨?_, ?_, ?_⟩
  · intro fuel g hp
    have hL := castleLeftScan_char (fun g c => inCheckAux fuel g c) g
      Color.White 0 (by norm_num) hp
    have hR := castleRightScan_char (fun g c => inCheckAux fuel g c) g
      Color.White 0 (by norm_num) hp
    simp only [rawMovesAux, hp]
    rw [if_pos trivial, hL, hR]
    exact mem_castle_append _ _ _ _ _ _ _ _ (by decide) (by decide) (by decide)
  · intro fuel g hp
    have hL := castleLeftScan_char (fun g c => inCheckAux fuel g c) g
      Color.Black 7 (by norm_num) hp
    have hR := castleRightScan_char (fun g c => inCheckAux fuel g c) g
      Color.Black 7 (by norm_num) hp
    simp only [rawMovesAux, hp]
    rw [if_pos trivial, hL, hR]
    exact mem_castle_append _ _ _ _ _ _ _ _ (by decide) (by decide) (by decide)
  · intro fuel g pos tc seq h
    simp only [checkValidMovesAux] at h
    exact List.mem_of_mem_filter h

theorem C4_castling_conditions_witness :
    castleCounterGame.get_from_pos (4, 0) = some ⟨Color.White, Kind.King⟩ ∧
    castleSeqLeft 0 ∈ rawMovesAux 1 castleCounterGame (4, 0) :=
  ⟨by decide,
    ((C4_castling_conditions.1 0 castleCounterGame (by decide)).1).mpr
      (by decide)⟩

/-- A black knight occupies c1, an intermediate square between the white
king on e1 and the rook on a1, yet the queenside castle sequence survives
`valid_moves`: the engine never tests square (2, y). -/
theorem C4_castling_conditions_counterexample :
    (castleCounterGame.get_from_pos (2, 0)).isSome = true ∧
    castleSeqLeft 0 ∈ castleCounterGame.valid_moves (4, 0) := by decide

theorem disambigInner_fold (origin dest : Pos) (i : Pos × Piece)
    (hne : i.1.1 ≠ origin.1) (L : List (List Move)) (rc : Bool × Bool) :
    L.foldl (disambigInner origin dest i) rc =
      (rc.1, rc.2 || L.any (hitsDest dest)) := by
  induction L generalizing rc with
  | nil => simp
  | cons v L ih =>
    rw [List.foldl_cons, ih, List.any_cons]
    unfold disambigInner hitsDest
    cases hv : v.getLast? with
    | none => simp
    | some mv =>
      dsimp only
      by_cases hd : mv.2.1 = dest.1 ∧ mv.2.2 = dest.2
      · rw [if_pos hd, if_neg hne]
        simp [hd]
      · rw [if_neg hd]
        simp [hd]

theorem disambigStep_eq (self : Game) (origin dest : Pos)
    (rc : Bool × Bool) (i : Pos × Piece) :
    disambigStep self origin dest rc i =
      (rc.1, rc.2 || disambigHit self origin dest i) := by
  unfold disambigStep disambigHit
  by_cases h : i.1.1 ≠ origin.1 ∧ i.1.2 ≠ origin.2
  · rw [if_pos h, disambigInner_fold origin dest i h.1]
    simp [h]
  · rw [if_neg h]
    simp [h]

theorem disambig_fold (self : Game) (origin dest : Pos)
    (L : List (Pos × Piece)) (rc : Bool × Bool) :
    L.foldl (disambigStep self origin dest) rc =
      (rc.1, rc.2 || L.any (disambigHit self origin dest)) := by
  induction L generalizing rc with
  | nil => simp
  | cons i L ih =>
    rw [List.foldl_cons, ih, disambigStep_eq, List.any_cons]
    simp [Bool.or_assoc]

theorem hitsDest_iff (dest : Pos) (v : List Move) :
    hitsDest dest v = true ↔
      ∃ mv, v.getLast? = some mv ∧ mv.2.1 = dest.1 ∧ mv.2.2 = dest.2 := by
  unfold hitsDest
  cases hv : v.getLast? with
  | none => simp
  | some mv => simp

theorem disambigHit_iff (self : Game) (origin dest : Pos) (i : Pos × Piece) :
    disambigHit self origin dest i = true ↔
      (i.1.1 ≠ origin.1 ∧ i.1.2 ≠ origin.2 ∧
        ∃ v ∈ self.valid_moves i.1, ∃ mv, v.getLast? = some mv ∧
          mv.2.1 = dest.1 ∧ mv.2.2 = dest.2) := by
  unfold disambigHit
  simp [List.any_eq_true, hitsDest_iff, and_assoc]

/-- Claim C6 (amended): the disambiguation fragment of the notation is the
origin file letter exactly when another piece of the same kind and color,
differing from the origin in BOTH file and rank, has a legal move ending on
the same destination; the origin rank digit is never emitted (the `row`
flag requires equal files inside a guard that excludes them), and pieces
sharing the origin's file or rank are never considered. -/
theorem C6_disambiguation (self : Game) (piece : Piece) (origin dest : Pos) :
    an_disambig self piece origin dest =
      if disambigNeeded self piece origin dest then [fileChar origin.1]
      else [] := by
  unfold an_disambig
  rw [disambig_fold]
  have hiff : ((self.by_kind_and_color piece.kind piece.color).any
      (disambigHit self origin dest) = true) ↔
      disambigNeeded self piece origin dest := by
    unfold disambigNeeded
    simp [List.any_eq_true, disambigHit_iff]
  by_cases hd : disambigNeeded self piece origin dest
  · rw [if_pos hd]
    have hb := hiff.mpr hd
    simp [hb]
  · rw [if_neg hd]
    have hb : ((self.by_kind_and_color piece.kind piece.color).any
        (disambigHit self origin dest)) = false :=
      Bool.eq_false_iff.mpr (fun h => hd (hiff.mp h))
    simp [hb]

/-- Two white rooks (a1 and h1) can both reach d1, yet the notation for
Ra1–d1 carries no disambiguation character: the rooks share a rank, so the
scan's both-coordinates-differ guard skips the other rook. -/
theorem C6_disambiguation_counterexample :
    disambigCounterGame.move_to_an [((0, 0), (3, 0))] false false =
      ['R', 'd', '1'] ∧
    [((7, 0), (3, 0))] ∈ disambigCounterGame.valid_moves (7, 0) ∧
    disambigCounterGame.get_from_pos (7, 0) =
      some ⟨Color.White, Kind.Rook⟩ := by decide

/-- Claim C7 (amended): with `result` false the suffix carries no mate or
draw marker, but it is "+" whenever the game is undecided and the opponent
is left in check — the "+" is appended regardless of the flag. -/
theorem C7_result_suffix (g2 : Game) (c : Color) :
    an_suffix g2 c false =
      (if g2.check_victory = none ∧ g2.in_check (otherColor c) = true
       then ['+'] else []) ∧
    '#' ∉ an_suffix g2 c false ∧
    Char.ofNat 189 ∉ an_suffix g2 c false := by
  have h : an_suffix g2 c false =
      (if g2.check_victory = none ∧ g2.in_check (otherColor c) = true
       then ['+'] else []) := by
    unfold an_suffix
    cases hcv : g2.check_victory with
    | some v => simp
    | none =>
      by_cases hic : g2.in_check (otherColor c) = true
      · simp [hic]
      · simp [hic]
  refine ⟨h, ?_, ?_⟩ <;> rw [h] <;> split <;> decide

/-- A rook lift a1–a8 gives check without deciding the game; the engine
emits "Ra8+" even though the result-suffix flag is false. -/
theorem C7_result_suffix_counterexample :
    suffixCounterGame.move_to_an [((0, 0), (0, 7))] false false =
      ['R', 'a', '8', '+'] := by decide

set_option maxRecDepth 100000 in
set_option maxHeartbeats 1000000 in
/-- Claim C5: every legal White move of the standard start position
round-trips through algebraic notation — converting with no result suffix
and letter symbols, then parsing back for White, returns exactly the
original sequence. -/
theorem C5_round_trip :
    ∀ m ∈ startWhiteMoves,
      Game.new.an_to_move (Game.new.move_to_an m false false) Color.White =
        some m := by decide

set_option maxRecDepth 100000 in
set_option maxHeartbeats 1000000 in
theorem C5_round_trip_witness :
    [((4, 1), (4, 3))] ∈ startWhiteMoves ∧
    Game.new.an_to_move
        (Game.new.move_to_an [((4, 1), (4, 3))] false false) Color.White =
      some [((4, 1), (4, 3))] :=
  ⟨by decide, C5_round_trip [((4, 1), (4, 3))] (by decide)⟩

end Chess
